import Mathlib

/-!
Verification of the rlunch scrape orchestration core against its
natural-language specification.

The Rust sources are shallowly embedded: UUIDs become `Nat`, `f32` prices
become exact rationals (`Rat`), hash maps become association lists in
iteration order, async channel interaction becomes explicit event lists,
and the Postgres state touched by `db::update_restaurants` becomes a pure
record of restaurant and dish rows.  Every definition is translated from
the corresponding Rust item, named after it where possible.
-/

namespace RLunch

/-- `models::Dish` (src/models.rs).  `dish_id`/`restaurant_id` are UUIDs,
modelled as `Nat`; `price : f32` is modelled as an exact rational. -/
structure Dish where
  dish_id : Nat
  restaurant_id : Nat
  name : String
  description : Option String := none
  comment : Option String := none
  tags : List String := []
  price : Rat := 0
deriving Repr, DecidableEq

/-- `models::Restaurant` (src/models.rs).  The `dishes : UuidMap<Dish>` field
is modelled as the list of its dish values in iteration order, which is all
`DishRows::from` and the scrape pipeline consume. -/
structure Restaurant where
  restaurant_id : Nat
  site_id : Nat
  name : String
  comment : Option String := none
  address : Option String := none
  url : Option String := none
  map_url : Option String := none
  parsed_at : Nat := 0
  dishes : List Dish := []
deriving Repr, DecidableEq

/-- `scrape::SiteScrapeResult` (src/scrape.rs). -/
structure SiteScrapeResult where
  site_id : Nat
  restaurants : List Restaurant
deriving Repr, DecidableEq

/-- `scrape::ScrapeCommand` (src/scrape.rs). -/
inductive ScrapeCommand
  | run
  | shutdown
deriving Repr, DecidableEq

/-- `scrape::start_scheduler` (src/scrape.rs:85-110): with `Some s` the cron
job is constructed from `s` (`Job::new_tz(s, ...)?`, any construction error
propagates as `Err`); with `None` it returns `Err("empty cron spec")`.
The external cron-expression parser is a parameter. -/
def start_scheduler (parseCron : String → Except String Unit)
    (schedule : Option String) : Except String Unit :=
  match schedule with
  | some s => parseCron s
  | none => .error "empty cron spec"

/-- Outcome of `scrape::run`'s scheduler dispatch: either the run aborts at
startup with an error, or it proceeds into the scheduled loop, or it
proceeds into the one-shot path. -/
inductive SupOutcome
  | abortedAtStartup (msg : String)
  | ranScheduled
  | ranOneshot
deriving Repr, DecidableEq

/-- Whether a supervisor outcome is a startup abort. -/
def SupOutcome.isAbort : SupOutcome → Bool
  | .abortedAtStartup _ => true
  | _ => false

/-- `scrape::run`'s dispatch on the scheduler (src/scrape.rs:68-74):
`Ok(sched) => run_loop(...)`, `Err(e) => run_oneshot(...)`.  Every
`start_scheduler` error — absence of a schedule as well as a malformed
expression — selects the one-shot path; no error aborts the run here. -/
def scrape_run (parseCron : String → Except String Unit)
    (schedule : Option String) : SupOutcome :=
  match start_scheduler parseCron schedule with
  | .ok _ => .ranScheduled
  | .error _ => .ranOneshot

/-! ## Database rows and `db::update_restaurants` (src/db.rs) -/

/-- A row of the `restaurant` table, as inserted by `db::update_restaurants`
(src/db.rs:559-569). -/
structure RestaurantRow where
  site_id : Nat
  restaurant_id : Nat
  restaurant_name : String
  comment : Option String
  address : Option String
  url : Option String
  map_url : Option String
  created_at : Nat
deriving Repr, DecidableEq

/-- A row of the `dish` table, as inserted by `db::update_restaurants`
(src/db.rs:571-585).  `tags` is the comma-joined flat string produced by
`DishRows::from` (src/models.rs:194). -/
structure DishRow where
  restaurant_id : Nat
  dish_id : Nat
  dish_name : String
  description : Option String
  comment : Option String
  price : Rat
  tags : String
deriving Repr, DecidableEq

/-- The restaurant/dish portion of the Postgres state touched by
`db::update_restaurants`. -/
structure DbState where
  restaurants : List RestaurantRow
  dishes : List DishRow
deriving Repr, DecidableEq

/-- The restaurant-table row for a scraped `Restaurant` (the column list of
the insert at src/db.rs:559-569). -/
def Restaurant.toRow (r : Restaurant) : RestaurantRow :=
  { site_id := r.site_id
    restaurant_id := r.restaurant_id
    restaurant_name := r.name
    comment := r.comment
    address := r.address
    url := r.url
    map_url := r.map_url
    created_at := r.parsed_at }

/-- The dish-table row for a scraped `Dish` (the `DishRows` flattening of
src/models.rs:184-200 feeding the unnest insert at src/db.rs:573-585). -/
def Dish.toRow (d : Dish) : DishRow :=
  { restaurant_id := d.restaurant_id
    dish_id := d.dish_id
    dish_name := d.name
    description := d.description
    comment := d.comment
    price := d.price
    tags := String.intercalate "," d.tags }

/-- Whether a stored restaurant row is hit by
`delete from restaurant where site_id = $1 and restaurant_name = $2`
issued for scraped restaurant `r` (src/db.rs:551-557). -/
def hitBy (r : Restaurant) (row : RestaurantRow) : Bool :=
  row.site_id == r.site_id && row.restaurant_name == r.name

/-- Whether any restaurant in `rs` issues a delete hitting `row`. -/
def hitByAny (rs : List Restaurant) (row : RestaurantRow) : Bool :=
  rs.any (fun r => hitBy r row)

/-- One iteration of the `for restaurant in update.restaurants` loop of
`db::update_restaurants` (src/db.rs:550-586): delete the rows with the same
`(site_id, restaurant_name)` — dish rows of a deleted restaurant go with it
via the schema's `on delete cascade` (documented at src/db.rs:494-496) —
then insert the fresh restaurant row and all its dish rows. -/
def update_restaurants_step (st : DbState) (r : Restaurant) : DbState :=
  let removed := (st.restaurants.filter (hitBy r)).map (fun row => row.restaurant_id)
  { restaurants := st.restaurants.filter (fun row => !(hitBy r row)) ++ [r.toRow]
    dishes := st.dishes.filter (fun d => !(removed.contains d.restaurant_id))
      ++ r.dishes.map Dish.toRow }

/-- `db::update_restaurants` (src/db.rs:542-592): the committed effect of
applying one `SiteScrapeResult` — the per-restaurant delete/insert loop run
to completion inside its single transaction. -/
def update_restaurants (st : DbState) (u : SiteScrapeResult) : DbState :=
  u.restaurants.foldl update_restaurants_step st

/-- Whether some scraped restaurant in `rs` carries the same
`(site_id, name)` key as `r`. -/
def keyMem (r : Restaurant) (rs : List Restaurant) : Bool :=
  hitByAny rs r.toRow

/-- The scraped restaurants that survive their own result's delete/insert
loop: for each `(site_id, name)` key, its last occurrence in the list. -/
def residR : List Restaurant → List Restaurant
  | [] => []
  | r :: rs => (if keyMem r rs then [] else [r]) ++ residR rs

/-- The dish rows of the surviving scraped restaurants, in order. -/
def residDishes (rs : List Restaurant) : List DishRow :=
  ((residR rs).map (fun r => r.dishes.map Dish.toRow)).flatten

/-- Whether the deletes issued for `rs` remove stored dish row `d`: some
stored restaurant row carries `d`'s `restaurant_id` and is hit by one of
the deletes — the cascade then takes `d` with it. -/
def stDishRemoved (rows : List RestaurantRow) (rs : List Restaurant)
    (d : DishRow) : Bool :=
  rows.any (fun row => row.restaurant_id == d.restaurant_id && hitByAny rs row)

/-- One SQL statement of `db::update_restaurants`'s loop
(src/db.rs:551-585). -/
inductive DbOp
  | deleteByName (site_id : Nat) (name : String)
  | insertRestaurant (row : RestaurantRow)
  | insertDishes (rows : List DishRow)
deriving Repr, DecidableEq

/-- Executing one statement against the restaurant/dish state; the delete
cascades to the dishes of the deleted restaurants (`on delete cascade`,
src/db.rs:494-496). -/
def execOp (st : DbState) : DbOp → DbState
  | .deleteByName sid name =>
    let removed := (st.restaurants.filter (fun row =>
      row.site_id == sid && row.restaurant_name == name)).map
        (fun row => row.restaurant_id)
    { restaurants := st.restaurants.filter (fun row =>
        !(row.site_id == sid && row.restaurant_name == name))
      dishes := st.dishes.filter (fun d =>
        !(removed.contains d.restaurant_id)) }
  | .insertRestaurant row => { st with restaurants := st.restaurants ++ [row] }
  | .insertDishes rows => { st with dishes := st.dishes ++ rows }

/-- The statement sequence `db::update_restaurants` issues inside its one
transaction, in loop order (src/db.rs:550-586). -/
def update_restaurants_ops (u : SiteScrapeResult) : List DbOp :=
  (u.restaurants.map (fun r =>
    [DbOp.deleteByName r.site_id r.name,
     DbOp.insertRestaurant r.toRow,
     DbOp.insertDishes (r.dishes.map Dish.toRow)])).flatten

/-- Transaction semantics: the statements run between `pg.begin()` and
`tx.commit()` (src/db.rs:546, 591); when execution fails after only
`k < length` statements (any `?` in the loop returns early and the dropped
transaction rolls back), the committed state is the initial one; only a
complete run commits the folded state. -/
def runTx (ops : List DbOp) (st : DbState) (k : Nat) : DbState :=
  if ops.length ≤ k then ops.foldl execOp st else st

/-! ## The scraper task loop `scrape::run_scraper` (src/scrape.rs:258-291) -/

/-- One event delivered by a scraper task's broadcast command receiver:
a command message, a lagged notification
(`broadcast::error::RecvError::Lagged`), or a closed channel
(`broadcast::error::RecvError::Closed`). -/
inductive RecvEvent
  | msg (c : ScrapeCommand)
  | lagged
  | closed
deriving Repr, DecidableEq

/-- Why (or whether) `run_scraper`'s loop stopped. `blocked` means the event
list ran out while the loop was still alive, awaiting the next command. -/
inductive ExitReason
  | shutdownCmd
  | cmdClosed
  | resClosed
  | blocked
deriving Repr, DecidableEq

/-- `scrape::run_scraper` (src/scrape.rs:258-291).  `scraperRun k` is the
outcome of the scraper's k-th `run()` call; `resOpen` tells whether
`results.send` succeeds.  Returns the results put on the result channel, in
order, and how the loop ended: on `Run` the (possibly `Err`) outcome is sent
and the loop continues, unless the send fails, which breaks the loop; on
`Shutdown` the loop breaks; `Lagged` retries the receive; `Closed` breaks. -/
def run_scraper (scraperRun : Nat → Except String SiteScrapeResult)
    (resOpen : Bool) :
    List RecvEvent → Nat → List (Except String SiteScrapeResult) × ExitReason
  | [], _ => ([], .blocked)
  | .msg .run :: evs, k =>
      if resOpen then
        let rest := run_scraper scraperRun resOpen evs (k + 1)
        (scraperRun k :: rest.1, rest.2)
      else ([], .resClosed)
  | .msg .shutdown :: _, _ => ([], .shutdownCmd)
  | .lagged :: evs, k => run_scraper scraperRun resOpen evs k
  | .closed :: _, _ => ([], .cmdClosed)

/-- Number of `Run` commands in an event list. -/
def countRuns : List RecvEvent → Nat
  | [] => 0
  | .msg .run :: evs => countRuns evs + 1
  | _ :: evs => countRuns evs

/-! ## The supervisor's result handling and one-shot mode (src/scrape.rs) -/

/-- One event the supervisor's `tokio::select!` in `handle_result` can wake
on: the external shutdown signal, a received result, or the result channel
reporting closure (`recv()` returning `None`). -/
inductive SupEvent
  | signal
  | res (r : Except String SiteScrapeResult)
  | closed

/-- Whether a supervisor event is a received result. -/
def SupEvent.isRes : SupEvent → Bool
  | .res _ => true
  | _ => false

/-- `scrape::handle_result` (src/scrape.rs:114-157): an `Ok` result is
applied to the database (a failed update is only logged) and the loop
continues; an `Err` result is logged and the loop continues; the shutdown
signal and a closed result channel make the caller break out of its loop. -/
def handle_result (st : DbState) : SupEvent → DbState × Bool
  | .signal => (st, false)
  | .res (.ok v) => (update_restaurants st v, true)
  | .res (.error _) => (st, true)
  | .closed => (st, false)

/-- The `for _ in 0..tasks.len()` loop of `scrape::run_oneshot`
(src/scrape.rs:172-176): at most `n` iterations, each awaiting one
supervisor event and breaking early when `handle_result` returns false.
Returns the final database state and the number of events consumed, or
`none` if the loop would block forever on an event that never arrives. -/
def run_oneshot_loop (st : DbState) :
    Nat → List SupEvent → Option (DbState × Nat)
  | 0, _ => some (st, 0)
  | Nat.succ _, [] => none
  | Nat.succ k, e :: evs =>
    match handle_result st e with
    | (st1, true) => (run_oneshot_loop st1 k evs).map (fun p => (p.1, p.2 + 1))
    | (st1, false) => some (st1, 1)

/-- `scrape::run_oneshot` (src/scrape.rs:159-181): after spawning the `n`
scraper tasks it sends exactly one `Run`, iterates the result loop at most
`n` times, then `stop_scrapers` sends `Shutdown` and joins the tasks.  The
returned command list is the broadcast trace, in order. -/
def run_oneshot (st : DbState) (n : Nat) (evs : List SupEvent) :
    Option (List ScrapeCommand × DbState × Nat) :=
  (run_oneshot_loop st n evs).map
    (fun p => ([ScrapeCommand.run, ScrapeCommand.shutdown], p.1, p.2))

/-! ## The HTTP response cache (src/cache.rs)

Bytes are modelled as `List Nat`, instants as `Nat` ticks.  Capacity-based
eviction of the moka cache is not modelled; no claim concerns it. -/

/-- `cache::CacheEntry` (src/cache.rs:23-27): one serialized record of the
cache file — key plus raw byte payload. -/
structure CacheEntry where
  key : String
  value : List Nat
deriving Repr, DecidableEq

/-- A resident entry of the TTL cache, with its insertion time. -/
structure MEntry where
  key : String
  value : List Nat
  inserted_at : Nat
deriving Repr, DecidableEq

/-- The `MCache` (`MokaCache<String, Arc<Vec<u8>>>` built with
`time_to_live(cache_ttl)`, src/cache.rs:21 and 117-122): the ttl and the
resident entries in insertion order. -/
structure MCache where
  ttl : Nat
  entries : List MEntry
deriving Repr, DecidableEq

/-- moka `insert`: replace the value (restarting the entry's TTL clock) when
the key is resident, else append. -/
def MCache.insertEntry (c : MCache) (now : Nat) (k : String) (v : List Nat) :
    MCache :=
  if c.entries.any (fun e => e.key == k) then
    { c with entries :=
        c.entries.map (fun e => if e.key == k then ⟨k, v, now⟩ else e) }
  else
    { c with entries := c.entries ++ [⟨k, v, now⟩] }

/-- moka's `time_to_live` expiry, as `run_pending_tasks` materializes it:
entries strictly older than the ttl are evicted. -/
def MCache.purgeExpired (c : MCache) (now : Nat) : MCache :=
  { c with entries := c.entries.filter (fun e => now - e.inserted_at ≤ c.ttl) }

/-- A raw record of the cache file: either a well-formed encoded
`CacheEntry` or a corrupt span of bytes. -/
inductive RawRecord
  | entry (e : CacheEntry)
  | corrupt
deriving Repr, DecidableEq

/-- bincode's `decode_from_std_read` of the whole `Vec<CacheEntry>`
(src/cache.rs:92): records are decoded in sequence and the first corrupt
record fails the entire decode — no partial vector is ever produced. -/
def decodeStore : List RawRecord → Except String (List CacheEntry)
  | [] => .ok []
  | .entry e :: rest => (decodeStore rest).map (fun es => e :: es)
  | .corrupt :: _ => .error "DecodeError"

/-- The entries of a fully well-formed record list. -/
def recordEntries : List RawRecord → List CacheEntry :=
  List.filterMap (fun r => match r with
    | .entry e => some e
    | .corrupt => none)

/-- The cache file as `CacheBuilder::load` sees it: `File::open` may fail
two ways, or the file opens and holds a record list. -/
inductive FileContent
  | missing
  | unreadable
  | present (records : List RawRecord)
deriving Repr, DecidableEq

/-- `CacheBuilder::load` (src/cache.rs:90-94): `File::open(path)?` then
decode the whole store; every failure surfaces as the one `Err`. -/
def CacheBuilder.load : FileContent → Except String (List CacheEntry)
  | .missing => .error "No such file or directory"
  | .unreadable => .error "Permission denied"
  | .present recs => decodeStore recs

/-- `CacheBuilder::populate_cache` (src/cache.rs:46-59): on a load failure
the error is logged and the given cache is returned unmodified; on success
every decoded entry is inserted, its TTL clock starting at the reload
time `now`. -/
def CacheBuilder.populate_cache (file : FileContent) (cache : MCache)
    (now : Nat) : MCache :=
  match CacheBuilder.load file with
  | .error _ => cache
  | .ok store =>
      store.foldl (fun c e => c.insertEntry now e.key e.value) cache

/-- `CacheBuilder::from_cache` chained with `CacheBuilder::save`
(src/cache.rs:63-87): `run_pending_tasks` (the expiry sweep) first, then
snapshot every resident entry as a `(key, value)` record, dropping
insertion times. -/
def save_file (c : MCache) (now : Nat) : List CacheEntry :=
  (c.purgeExpired now).entries.map (fun e => ⟨e.key, e.value⟩)

/-- `cache::Opts` (src/cache.rs:97-104), durations in abstract ticks. -/
structure Opts where
  request_delay : Nat
  request_timeout : Nat
  cache_ttl : Nat
  cache_capacity : Nat
  cache_path : Option String
deriving Repr, DecidableEq

/-- `http_cache_reqwest::CacheMode`, restricted to the two modes the code
selects between. -/
inductive CacheMode
  | NoStore
  | ForceCache
deriving Repr, DecidableEq

/-- `Opts::cache_mode` (src/cache.rs:107-115): a zero ttl disables caching
altogether via `NoStore`; otherwise `ForceCache`. -/
def Opts.cache_mode (o : Opts) : CacheMode :=
  if o.cache_ttl = 0 then .NoStore else .ForceCache

/-- `Opts::build_cache` (src/cache.rs:117-122): a fresh empty cache with
the configured ttl. -/
def Opts.build_cache (o : Opts) : MCache :=
  { ttl := o.cache_ttl, entries := [] }

/-- `cache::Client` (src/cache.rs:132-163): the cache mode baked into the
middleware stack, the shared cache, and the configured file path (reqwest
plumbing and the request delay are dropped). -/
structure Client where
  mode : CacheMode
  cache : MCache
  cache_path : Option String
deriving Repr, DecidableEq

/-- `Client::build` (src/cache.rs:142-163): preload the cache from the file
when a path is configured (`populate_cache` itself never fails), else start
empty; only reqwest client construction is fallible, so the build result is
always `Ok` here. -/
def Client.build (o : Opts) (file : FileContent) (now : Nat) :
    Except String Client :=
  let cache := match o.cache_path with
    | some _ => CacheBuilder.populate_cache file o.build_cache now
    | none => o.build_cache
  .ok { mode := o.cache_mode, cache := cache, cache_path := o.cache_path }

/-- Result of one request through the cache middleware: the body returned,
the cache afterwards, and how many times the live origin was contacted. -/
structure FetchOutcome where
  body : List Nat
  cache : MCache
  netCalls : Nat
deriving Repr, DecidableEq

/-- `Client::get_as_string` (src/cache.rs:184-192) through the `http-cache`
middleware.  Modelled from the middleware's documented mode semantics:
`NoStore` never reads nor writes the cache and always contacts the origin;
`ForceCache` serves any non-expired cached body without a network call and
otherwise fetches and stores.  `network` is the live origin. -/
def Client.get_as_string (cl : Client) (network : String → List Nat)
    (now : Nat) (url : String) : FetchOutcome :=
  match cl.mode with
  | .NoStore => ⟨network url, cl.cache, 1⟩
  | .ForceCache =>
    match (cl.cache.purgeExpired now).entries.find? (fun e => e.key == url)
      with
    | some e => ⟨e.value, cl.cache, 0⟩
    | none => ⟨network url, cl.cache.insertEntry now url (network url), 1⟩

/-- Issue `get_as_string` once per url in turn, threading the cache through
and summing origin contacts. -/
def Client.get_many (cl : Client) (network : String → List Nat)
    (now : Nat) : List String → Client × Nat
  | [] => (cl, 0)
  | url :: urls =>
    let o := cl.get_as_string network now url
    let rest := Client.get_many { cl with cache := o.cache } network now urls
    (rest.1, o.netCalls + rest.2)

/-! ## `util::parse_float` (src/util.rs:19-24) and scraped dish prices

`parse_float` defers to nom's `complete::float`, which recognizes an
optional sign, a mantissa (`digit1 ('.' digit0*)? | '.' digit1`) and an
optional exponent (`('e'|'E') sign? digit1`), over a prefix of the input,
and returns `0.0` when nothing parses.  The numeric value is modelled as an
exact rational instead of an `f32`; the rounding of the lexical-to-float
conversion and nom's `inf`/`nan` exception tokens are not modelled. -/

/-- The optional leading sign: `-` gives -1, `+` or nothing gives 1. -/
def parseSign : List Char → Rat × List Char
  | c :: cs =>
    if c = '-' then (-1, cs)
    else if c = '+' then (1, cs)
    else (1, c :: cs)
  | [] => (1, [])

/-- Longest leading run of ASCII digits, and the rest. -/
def takeDigits : List Char → List Char × List Char
  | c :: cs =>
    if c.isDigit then
      let p := takeDigits cs
      (c :: p.1, p.2)
    else ([], c :: cs)
  | [] => ([], [])

/-- Decimal value of a digit run. -/
def digitsToNat (ds : List Char) : Nat :=
  ds.foldl (fun a c => a * 10 + (c.toNat - '0'.toNat)) 0

/-- Value of a fractional digit run `ds` read after the decimal point. -/
def fracVal (ds : List Char) : Rat :=
  (digitsToNat ds : Rat) / ((10 : Rat) ^ ds.length)

/-- The mantissa: `digit1 ('.' digit0*)? | '.' digit1`. -/
def parseMantissa (cs : List Char) : Option (Rat × List Char) :=
  match takeDigits cs with
  | ([], _) =>
    match cs with
    | '.' :: cs1 =>
      match takeDigits cs1 with
      | ([], _) => none
      | (ds, rest) => some (fracVal ds, rest)
    | _ => none
  | (ds, rest) =>
    match rest with
    | '.' :: cs1 =>
      let p := takeDigits cs1
      some ((digitsToNat ds : Rat) + fracVal p.1, p.2)
    | _ => some ((digitsToNat ds : Rat), rest)

/-- The optional exponent `('e'|'E') sign? digit1`; nom's `cut(digit1)`
makes a dangling `e` fail the whole parse. Returns the scale factor. -/
def parseExponent (cs : List Char) : Option (Rat × List Char) :=
  match cs with
  | c :: cs1 =>
    if c = 'e' ∨ c = 'E' then
      match takeDigits (parseSign cs1).2 with
      | ([], _) => none
      | (ds, rest) =>
          some (if (parseSign cs1).1 = 1 then (10 : Rat) ^ digitsToNat ds
            else ((10 : Rat) ^ digitsToNat ds)⁻¹, rest)
    else some (1, c :: cs1)
  | [] => some (1, [])

/-- nom `complete::float` on a character list: sign, mantissa, exponent;
the value is `sign * mantissa * scale` and the unconsumed rest is kept. -/
def nomFloat (cs : List Char) : Option (Rat × List Char) :=
  let s := parseSign cs
  match parseMantissa s.2 with
  | none => none
  | some (m, cs2) =>
    match parseExponent cs2 with
    | none => none
    | some (scale, rest) => some (s.1 * (m * scale), rest)

/-- `util::parse_float` (src/util.rs:19-24): the parsed value, or `0.0`
when the parse fails. -/
def parse_float (s : String) : Rat :=
  match nomFloat s.toList with
  | some (v, _) => v
  | none => 0

/-- `models::fawenah::MenuItem` (src/models.rs:632-640). -/
structure MenuItem where
  name : String
  category : String
  description : String
  price : String
  tags : List String
deriving Repr, DecidableEq

/-- `impl From<fawenah::MenuItem> for Dish` (src/models.rs:112-131); the
fresh `Uuid::new_v4()` dish id is a parameter.  Empty category, description
and price strings leave the respective defaults (`None`, `None`, `0.0`). -/
def dishFromMenuItem (freshId : Nat) (item : MenuItem) : Dish :=
  let s : Dish :=
    { dish_id := freshId
      restaurant_id := 0
      name := item.name
      description := none
      comment := none
      tags := item.tags
      price := 0 }
  let s := if item.category = "" then s else { s with comment := some item.category }
  let s := if item.description = "" then s
    else { s with description := some item.description }
  if item.price = "" then s else { s with price := parse_float item.price }

/-! ## Name-keyed and UUID-keyed restaurant maps (src/models.rs:29-39)

The Rust `HashMap`s are modelled as association lists in iteration order;
`collect` into a map becomes a left fold of inserts, a later pair with an
already-present key overwriting the earlier one. -/

/-- `HashMap` insert on the association-list model: replace the stored pair
when the key is present, else append. -/
def assocInsert {κ α : Type} [BEq κ] (l : List (κ × α)) (k : κ) (v : α) :
    List (κ × α) :=
  if l.any (fun p => p.1 == k) then
    l.map (fun p => if p.1 == k then (k, v) else p)
  else l ++ [(k, v)]

/-- `impl From<UuidMap<Restaurant>> for HashMap<String, Restaurant>`
(src/models.rs:29-33): drain and re-key every restaurant by its name;
restaurants sharing a name collide and only one survives. -/
def toNameMap (m : List (Nat × Restaurant)) : List (String × Restaurant) :=
  m.foldl (fun acc p => assocInsert acc p.2.name p.2) []

/-- `impl From<HashMap<String, Restaurant>> for UuidMap<Restaurant>`
(src/models.rs:35-39): drain and re-key every restaurant by `v.id()`. -/
def toUuidMap (m : List (String × Restaurant)) : List (Nat × Restaurant) :=
  m.foldl (fun acc p => assocInsert acc p.2.restaurant_id p.2) []

end RLunch

namespace RLunch

/-- Events on which `run_scraper`'s loop keeps listening: a `Run` command
(scrape and continue) and a lagged receiver (skip and retry). -/
def RecvEvent.keepsListening : RecvEvent → Bool
  | .msg .run => true
  | .lagged => true
  | _ => false

theorem range_map_shift {α : Type} (f : Nat → α) (k n : Nat) :
    (List.range (n + 1)).map (fun i => f (k + i))
      = f k :: (List.range n).map (fun i => f (k + 1 + i)) := by
  rw [List.range_succ_eq_map, List.map_cons, List.map_map]
  refine congrArg₂ List.cons (congrArg f (by omega)) (List.map_congr_left ?_)
  intro a _
  exact congrArg f (by omega)

theorem run_oneshot_loop_all_results (st : DbState) (evs : List SupEvent)
    (h : evs.all SupEvent.isRes = true) :
    ∃ st', run_oneshot_loop st evs.length evs = some (st', evs.length) := by
  induction evs generalizing st with
  | nil => exact ⟨st, rfl⟩
  | cons e evs ih =>
    rw [List.all_cons, Bool.and_eq_true] at h
    obtain ⟨he, hall⟩ := h
    cases e with
    | signal => simp [SupEvent.isRes] at he
    | closed => simp [SupEvent.isRes] at he
    | res r =>
      cases r with
      | ok v =>
        obtain ⟨st', hst⟩ := ih (update_restaurants st v) hall
        exact ⟨st', by simp [run_oneshot_loop, handle_result, hst]⟩
      | error msg =>
        obtain ⟨st', hst⟩ := ih st hall
        exact ⟨st', by simp [run_oneshot_loop, handle_result, hst]⟩

/-- C1, claim as stated, is false: with a cron parser that rejects the
supplied expression, the supervisor does not abort at startup — it runs the
one-shot path. -/
theorem C1_counterexample :
    scrape_run (fun _ => .error "invalid cron expression") (some "not a cron")
      = SupOutcome.ranOneshot
    ∧ (scrape_run (fun _ => .error "invalid cron expression")
        (some "not a cron")).isAbort = false := by
  exact ⟨rfl, rfl⟩

/-- C1 (amended): a scheduler construction failure on a supplied schedule
expression does not abort the run; the supervisor falls back to one-shot
mode, the same path selected by absence of a schedule. -/
theorem C1_bad_schedule_falls_back_to_oneshot
    (parseCron : String → Except String Unit) (s e : String)
    (h : parseCron s = .error e) :
    scrape_run parseCron (some s) = SupOutcome.ranOneshot
    ∧ scrape_run parseCron none = SupOutcome.ranOneshot := by
  refine ⟨?_, rfl⟩
  simp [scrape_run, start_scheduler, h]

/-- Witness for C1 (amended) at a concrete failing parser and expression. -/
theorem C1_bad_schedule_falls_back_to_oneshot_witness :
    scrape_run (fun _ => .error "bad") (some "x") = SupOutcome.ranOneshot
    ∧ scrape_run (fun _ => .error "bad") none = SupOutcome.ranOneshot :=
  C1_bad_schedule_falls_back_to_oneshot (fun _ => .error "bad") "x" "bad" rfl

/-- C7: while the result channel is open and no `Shutdown` or closed-channel
event arrives, the scraper task's loop forwards every single `run()` outcome
— `Err` outcomes included — onto the result channel in order, skips lagged
notifications, and is still alive listening for the next command
(`ExitReason.blocked`); in particular a scrape failure never terminates the
loop, which by `run_scraper`'s definition exits only on `Shutdown`, a
closed command channel, or a closed result channel. -/
theorem C7_scrape_error_never_stops_task_loop
    (scraperRun : Nat → Except String SiteScrapeResult)
    (evs : List RecvEvent) (k : Nat)
    (h : evs.all RecvEvent.keepsListening = true) :
    run_scraper scraperRun true evs k
      = ((List.range (countRuns evs)).map (fun i => scraperRun (k + i)),
         ExitReason.blocked) := by
  induction evs generalizing k with
  | nil => rfl
  | cons e evs ih =>
    rw [List.all_cons, Bool.and_eq_true] at h
    obtain ⟨he, hall⟩ := h
    cases e with
    | msg c =>
      cases c with
      | run =>
        have hrest := ih (k + 1) hall
        simp only [run_scraper, if_pos, countRuns, hrest, range_map_shift]
      | shutdown => simp [RecvEvent.keepsListening] at he
    | lagged =>
      simpa [run_scraper, countRuns] using ih k hall
    | closed => simp [RecvEvent.keepsListening] at he

/-- Witness for C7: a scraper failing its first run and succeeding its
second; both outcomes land on the channel, and the loop stays alive. -/
theorem C7_scrape_error_never_stops_task_loop_witness :
    ([RecvEvent.msg ScrapeCommand.run, RecvEvent.lagged,
      RecvEvent.msg ScrapeCommand.run].all RecvEvent.keepsListening = true)
    ∧ run_scraper
        (fun k => if k = 0 then .error "network failure" else .ok ⟨7, []⟩)
        true
        [RecvEvent.msg ScrapeCommand.run, RecvEvent.lagged,
         RecvEvent.msg ScrapeCommand.run] 0
      = ((List.range (countRuns
            [RecvEvent.msg ScrapeCommand.run, RecvEvent.lagged,
             RecvEvent.msg ScrapeCommand.run])).map
          (fun i =>
            (fun k => if k = 0 then Except.error "network failure"
              else Except.ok (⟨7, []⟩ : SiteScrapeResult)) (0 + i)),
         ExitReason.blocked) :=
  ⟨by decide,
   C7_scrape_error_never_stops_task_loop
     (fun k => if k = 0 then .error "network failure" else .ok ⟨7, []⟩)
     [RecvEvent.msg ScrapeCommand.run, RecvEvent.lagged,
      RecvEvent.msg ScrapeCommand.run] 0 (by decide)⟩

/-- C3: in one-shot mode with `n` scrapers, when the result channel delivers
`n` results (each `Ok` or `Err`) and in particular no external shutdown
signal is consumed, the supervisor emits exactly one `Run`, processes
exactly `n` results, and then proceeds directly to shutdown, broadcasting
`Shutdown` — the command trace is exactly `[Run, Shutdown]`. -/
theorem C3_oneshot_exactly_n_results_then_shutdown
    (st : DbState) (n : Nat) (evs : List SupEvent)
    (hlen : evs.length = n) (hres : evs.all SupEvent.isRes = true) :
    ∃ st', run_oneshot st n evs
      = some ([ScrapeCommand.run, ScrapeCommand.shutdown], st', n) := by
  subst hlen
  obtain ⟨st', hst⟩ := run_oneshot_loop_all_results st evs hres
  exact ⟨st', by simp [run_oneshot, hst]⟩

/-- Witness for C3: two scrapers, one `Ok` and one `Err` result. -/
theorem C3_oneshot_exactly_n_results_then_shutdown_witness :
    (([SupEvent.res (.ok ⟨3, []⟩),
       SupEvent.res (.error "site unreachable")] : List SupEvent).length = 2)
    ∧ ([SupEvent.res (.ok ⟨3, []⟩),
        SupEvent.res (.error "site unreachable")].all SupEvent.isRes = true)
    ∧ ∃ st', run_oneshot ⟨[], []⟩ 2
        [SupEvent.res (.ok ⟨3, []⟩), SupEvent.res (.error "site unreachable")]
        = some ([ScrapeCommand.run, ScrapeCommand.shutdown], st', 2) :=
  ⟨rfl, rfl,
   C3_oneshot_exactly_n_results_then_shutdown ⟨[], []⟩ 2
     [SupEvent.res (.ok ⟨3, []⟩), SupEvent.res (.error "site unreachable")]
     rfl rfl⟩

theorem decodeStore_error_of_corrupt (recs : List RawRecord)
    (h : RawRecord.corrupt ∈ recs) :
    decodeStore recs = .error "DecodeError" := by
  induction recs with
  | nil => cases h
  | cons r recs ih =>
    cases r with
    | corrupt => rfl
    | entry e =>
      have hmem : RawRecord.corrupt ∈ recs := by
        rcases List.mem_cons.mp h with h' | h'
        · cases h'
        · exact h'
      simp [decodeStore, ih hmem, Except.map]

theorem decodeStore_ok_of_clean (recs : List RawRecord)
    (h : RawRecord.corrupt ∉ recs) :
    decodeStore recs = .ok (recordEntries recs) := by
  induction recs with
  | nil => rfl
  | cons r recs ih =>
    cases r with
    | corrupt => exact absurd (List.mem_cons_self _ _) h
    | entry e =>
      have hmem : RawRecord.corrupt ∉ recs := fun hc =>
        h (List.mem_cons_of_mem _ hc)
      simp [decodeStore, recordEntries, ih hmem, Except.map]

theorem populate_fresh (now : Nat) (es : List CacheEntry) (c0 : MCache)
    (hdisj : ∀ e ∈ es, ∀ m ∈ c0.entries, m.key ≠ e.key)
    (hnodup : (es.map (fun e => e.key)).Nodup) :
    es.foldl (fun ca e => ca.insertEntry now e.key e.value) c0
      = { c0 with
          entries := c0.entries ++ es.map (fun e => ⟨e.key, e.value, now⟩) } := by
  induction es generalizing c0 with
  | nil => simp
  | cons e es ih =>
    have hnone : c0.entries.any (fun m => m.key == e.key) = false := by
      rw [List.any_eq_false]
      intro m hm
      simpa using hdisj e (List.mem_cons_self _ _) m hm
    rw [List.map_cons, List.nodup_cons] at hnodup
    obtain ⟨hkey, hnodup⟩ := hnodup
    have hstep : (MCache.insertEntry c0 now e.key e.value)
        = { c0 with entries := c0.entries ++ [⟨e.key, e.value, now⟩] } := by
      simp [MCache.insertEntry, hnone]
    rw [List.foldl_cons, hstep,
      ih { c0 with entries := c0.entries ++ [⟨e.key, e.value, now⟩] }
        (by
          intro e' he' m hm
          rcases List.mem_append.mp hm with hm | hm
          · exact hdisj e' (List.mem_cons_of_mem _ he') m hm
          · rcases List.mem_singleton.mp hm with rfl
            intro hk
            apply hkey
            have hk' : e.key = e'.key := hk
            rw [hk']
            exact List.mem_map_of_mem (fun x => x.key) he')
        hnodup]
    simp

/-- C4: saving a cache to its file and rebuilding a fresh client from the
same path restores exactly the saved (key, value) set — the entries that
were resident and unexpired at save time — while every restored entry's TTL
clock is restarted at the reload time, not at its original insertion
time. -/
theorem C4_save_build_round_trip
    (o : Opts) (p : String) (hpath : o.cache_path = some p)
    (c : MCache) (t1 t2 : Nat)
    (hkeys : (c.entries.map (fun e => e.key)).Nodup) :
    ∃ rebuilt : MCache,
      Client.build o (.present ((save_file c t1).map RawRecord.entry)) t2
        = .ok { mode := o.cache_mode, cache := rebuilt,
                cache_path := o.cache_path }
      ∧ rebuilt.entries
          = (c.purgeExpired t1).entries.map (fun e => ⟨e.key, e.value, t2⟩) := by
  refine ⟨CacheBuilder.populate_cache
      (.present ((save_file c t1).map RawRecord.entry)) o.build_cache t2,
    by simp [Client.build, hpath], ?_⟩
  have hclean : RawRecord.corrupt ∉ (save_file c t1).map RawRecord.entry := by
    intro hmem
    rcases List.mem_map.mp hmem with ⟨e, _, he⟩
    cases he
  have hdec : decodeStore ((save_file c t1).map RawRecord.entry)
      = .ok (save_file c t1) := by
    rw [decodeStore_ok_of_clean _ hclean]
    simp [recordEntries, List.filterMap_map, Function.comp_def,
      List.filterMap_some]
  have hnodup : ((save_file c t1).map (fun e => e.key)).Nodup := by
    have hsub : List.Sublist
        ((c.purgeExpired t1).entries.map (fun e => e.key))
        (c.entries.map (fun e => e.key)) :=
      List.Sublist.map _ (List.filter_sublist _)
    simpa [save_file, List.map_map, Function.comp_def] using
      hkeys.sublist hsub
  simp only [CacheBuilder.populate_cache, CacheBuilder.load, hdec]
  rw [populate_fresh t2 (save_file c t1) o.build_cache
    (by intro e _ m hm; simp [Opts.build_cache] at hm) hnodup]
  simp [Opts.build_cache, save_file, List.map_map, Function.comp_def]

/-- Witness for C4 at a concrete two-entry cache. -/
theorem C4_save_build_round_trip_witness :
    ((⟨0, 0, 30, 10, some "cache.bin"⟩ : Opts).cache_path = some "cache.bin")
    ∧ (((⟨30, [⟨"a", [1, 2], 0⟩, ⟨"b", [3], 5⟩]⟩ : MCache).entries.map
        (fun e => e.key)).Nodup)
    ∧ ∃ rebuilt : MCache,
        Client.build ⟨0, 0, 30, 10, some "cache.bin"⟩
          (.present ((save_file ⟨30, [⟨"a", [1, 2], 0⟩, ⟨"b", [3], 5⟩]⟩ 10).map
            RawRecord.entry)) 100
          = .ok { mode := (⟨0, 0, 30, 10, some "cache.bin"⟩ : Opts).cache_mode,
                  cache := rebuilt, cache_path := some "cache.bin" }
        ∧ rebuilt.entries
            = ((⟨30, [⟨"a", [1, 2], 0⟩, ⟨"b", [3], 5⟩]⟩ : MCache).purgeExpired
                10).entries.map (fun e => ⟨e.key, e.value, 100⟩) :=
  ⟨rfl, by decide,
   C4_save_build_round_trip ⟨0, 0, 30, 10, some "cache.bin"⟩ "cache.bin" rfl
     ⟨30, [⟨"a", [1, 2], 0⟩, ⟨"b", [3], 5⟩]⟩ 10 100 (by decide)⟩

/-- C5: a missing, unreadable, or malformed cache file is handled by the
same recovery path — the error is logged and the preloaded cache is exactly
the untouched empty cache — and client construction still succeeds, so a
bad cache file is never fatal. -/
theorem C5_bad_cache_file_logged_and_empty
    (o : Opts) (p : String) (hpath : o.cache_path = some p)
    (now : Nat) (recs : List RawRecord)
    (hcorrupt : RawRecord.corrupt ∈ recs) :
    CacheBuilder.populate_cache .missing o.build_cache now = o.build_cache
    ∧ CacheBuilder.populate_cache .unreadable o.build_cache now = o.build_cache
    ∧ CacheBuilder.populate_cache (.present recs) o.build_cache now
        = o.build_cache
    ∧ Client.build o .missing now
        = .ok { mode := o.cache_mode, cache := o.build_cache,
                cache_path := o.cache_path }
    ∧ Client.build o .unreadable now
        = .ok { mode := o.cache_mode, cache := o.build_cache,
                cache_path := o.cache_path }
    ∧ Client.build o (.present recs) now
        = .ok { mode := o.cache_mode, cache := o.build_cache,
                cache_path := o.cache_path } := by
  have hmal : CacheBuilder.populate_cache (.present recs) o.build_cache now
      = o.build_cache := by
    rw [CacheBuilder.populate_cache, CacheBuilder.load,
      decodeStore_error_of_corrupt recs hcorrupt]
  refine ⟨rfl, rfl, hmal, ?_, ?_, ?_⟩ <;> simp [Client.build, hpath, hmal] <;>
    rfl

/-- Witness for C5 at a concrete options record and a concrete corrupt
file. -/
theorem C5_bad_cache_file_logged_and_empty_witness :
    ((⟨0, 0, 30, 10, some "cache.bin"⟩ : Opts).cache_path = some "cache.bin")
    ∧ (RawRecord.corrupt ∈ [RawRecord.entry ⟨"a", [1]⟩, RawRecord.corrupt])
    ∧ CacheBuilder.populate_cache .missing
        (⟨0, 0, 30, 10, some "cache.bin"⟩ : Opts).build_cache 7
        = (⟨0, 0, 30, 10, some "cache.bin"⟩ : Opts).build_cache := by
  refine ⟨rfl, by decide, ?_⟩
  exact (C5_bad_cache_file_logged_and_empty ⟨0, 0, 30, 10, some "cache.bin"⟩
    "cache.bin" rfl 7 [RawRecord.entry ⟨"a", [1]⟩, RawRecord.corrupt]
    (by decide)).1

theorem get_many_nostore (cl : Client) (hmode : cl.mode = CacheMode.NoStore)
    (network : String → List Nat) (now : Nat) (urls : List String) :
    cl.get_many network now urls = (cl, urls.length) := by
  induction urls with
  | nil => rfl
  | cons url urls ih =>
    have hget : cl.get_as_string network now url = ⟨network url, cl.cache, 1⟩ := by
      simp [Client.get_as_string, hmode]
    simp only [Client.get_many, hget]
    rw [show { cl with cache := cl.cache } = cl from rfl, ih]
    simp [Nat.add_comm]

/-- C6: with the configured TTL zero, the cache mode is `NoStore`, so every
`get_as_string` call contacts the origin exactly once — `n` calls make
exactly `n` network requests even for identical urls — and the cache is
never written. -/
theorem C6_zero_ttl_disables_caching
    (o : Opts) (file : FileContent) (now : Nat)
    (network : String → List Nat) (urls : List String) (cl : Client)
    (httl : o.cache_ttl = 0) (hcl : Client.build o file now = .ok cl) :
    cl.mode = CacheMode.NoStore
    ∧ cl.get_many network now urls = (cl, urls.length) := by
  have hmode : cl.mode = CacheMode.NoStore := by
    simp only [Client.build, Except.ok.injEq] at hcl
    rw [← hcl]
    simp [Opts.cache_mode, httl]
  exact ⟨hmode, get_many_nostore cl hmode network now urls⟩

/-- Witness for C6: two identical urls against a zero-TTL client make two
network calls and leave the client unchanged. -/
theorem C6_zero_ttl_disables_caching_witness :
    ((⟨0, 0, 0, 10, none⟩ : Opts).cache_ttl = 0)
    ∧ (Client.build ⟨0, 0, 0, 10, none⟩ .missing 0
        = .ok ⟨CacheMode.NoStore, ⟨0, []⟩, none⟩)
    ∧ (⟨CacheMode.NoStore, ⟨0, []⟩, none⟩ : Client).mode = CacheMode.NoStore
    ∧ Client.get_many ⟨CacheMode.NoStore, ⟨0, []⟩, none⟩ (fun _ => [42]) 0
        ["http://a", "http://a"]
        = (⟨CacheMode.NoStore, ⟨0, []⟩, none⟩, 2) := by
  refine ⟨rfl, rfl, ?_⟩
  exact C6_zero_ttl_disables_caching ⟨0, 0, 0, 10, none⟩ .missing 0
    (fun _ => [42]) ["http://a", "http://a"]
    ⟨CacheMode.NoStore, ⟨0, []⟩, none⟩ rfl rfl

/-- C9: preloading from a file is all-or-nothing — a decode failure
anywhere in the file (even after arbitrarily many well-formed records)
leaves the given cache exactly as it was, and only a fully successful
decode inserts the entries, all of them. -/
theorem C9_preload_all_or_nothing (recs : List RawRecord) (c : MCache)
    (now : Nat) :
    (RawRecord.corrupt ∈ recs →
      CacheBuilder.populate_cache (.present recs) c now = c)
    ∧ (RawRecord.corrupt ∉ recs →
      CacheBuilder.populate_cache (.present recs) c now
        = (recordEntries recs).foldl
            (fun ca e => ca.insertEntry now e.key e.value) c) := by
  constructor
  · intro h
    rw [CacheBuilder.populate_cache, CacheBuilder.load,
      decodeStore_error_of_corrupt recs h]
  · intro h
    rw [CacheBuilder.populate_cache, CacheBuilder.load,
      decodeStore_ok_of_clean recs h]

theorem fracVal_nonneg (ds : List Char) : 0 ≤ fracVal ds :=
  div_nonneg (Nat.cast_nonneg _) (pow_nonneg (by norm_num) _)

theorem parseMantissa_nonneg {cs : List Char} {m : Rat} {rest : List Char}
    (h : parseMantissa cs = some (m, rest)) : 0 ≤ m := by
  unfold parseMantissa at h
  split at h
  · split at h
    · split at h
      · exact Option.noConfusion h
      · rw [Option.some.injEq, Prod.mk.injEq] at h
        rw [← h.1]
        exact fracVal_nonneg _
    · exact Option.noConfusion h
  · split at h
    · rw [Option.some.injEq, Prod.mk.injEq] at h
      rw [← h.1]
      exact add_nonneg (Nat.cast_nonneg _) (fracVal_nonneg _)
    · rw [Option.some.injEq, Prod.mk.injEq] at h
      rw [← h.1]
      exact Nat.cast_nonneg _

theorem parseExponent_nonneg {cs : List Char} {sc : Rat} {rest : List Char}
    (h : parseExponent cs = some (sc, rest)) : 0 ≤ sc := by
  unfold parseExponent at h
  split at h
  · split at h
    · split at h
      · exact Option.noConfusion h
      · rw [Option.some.injEq, Prod.mk.injEq] at h
        rw [← h.1]
        split
        · exact pow_nonneg (by norm_num) _
        · exact inv_nonneg.mpr (pow_nonneg (by norm_num) _)
    · rw [Option.some.injEq, Prod.mk.injEq] at h
      rw [← h.1]
      exact zero_le_one
  · rw [Option.some.injEq, Prod.mk.injEq] at h
    rw [← h.1]
    exact zero_le_one

theorem parseSign_fst_of_no_minus {cs : List Char}
    (h : cs.head? ≠ some '-') : (parseSign cs).1 = 1 := by
  cases cs with
  | nil => rfl
  | cons c cs =>
    have hc : ¬ c = '-' := by simpa using h
    have hps : parseSign (c :: cs)
        = if c = '-' then (-1, cs)
          else if c = '+' then (1, cs) else (1, c :: cs) := rfl
    rw [hps, if_neg hc]
    split <;> rfl

theorem nomFloat_nonneg {cs : List Char} {v : Rat} {rest : List Char}
    (hsgn : (parseSign cs).1 = 1) (h : nomFloat cs = some (v, rest)) :
    0 ≤ v := by
  simp only [nomFloat] at h
  split at h
  · exact Option.noConfusion h
  next m cs2 heqm =>
    split at h
    · exact Option.noConfusion h
    next scale rest2 heqe =>
      rw [Option.some.injEq, Prod.mk.injEq] at h
      rw [← h.1, hsgn, one_mul]
      exact mul_nonneg (parseMantissa_nonneg heqm) (parseExponent_nonneg heqe)

theorem parse_float_nonneg (s : String)
    (h : s.toList.head? ≠ some '-') : 0 ≤ parse_float s := by
  unfold parse_float
  split
  next v rest heq =>
    exact nomFloat_nonneg (parseSign_fst_of_no_minus h) heq
  next => exact le_refl 0

/-- The price field of a converted menu item, isolated. -/
theorem dishFromMenuItem_price (freshId : Nat) (item : MenuItem) :
    (dishFromMenuItem freshId item).price
      = if item.price = "" then 0 else parse_float item.price := by
  unfold dishFromMenuItem
  split_ifs <;> rfl

/-- C8, claim as stated, is false: a menu item whose scraped price string
carries a leading minus sign produces a dish with a strictly negative
price — `parse_float` accepts nom's optional sign. -/
theorem C8_counterexample :
    (dishFromMenuItem 1 ⟨"soup", "", "", "-5", []⟩).price = -5
    ∧ (dishFromMenuItem 1 ⟨"soup", "", "", "-5", []⟩).price < 0 := by
  have h : (dishFromMenuItem 1 ⟨"soup", "", "", "-5", []⟩).price
      = -1 * (((5 : Nat) : Rat) * 1) := rfl
  rw [h]
  norm_num

/-- C8 (amended): a dish built from a scraped menu item has a nonnegative
price whenever the scraped price string does not start with a minus sign;
empty and unparsable price strings yield 0.  (A leading minus does produce
a negative price, per the counterexample.) -/
theorem C8_price_nonneg_unless_leading_minus (freshId : Nat)
    (item : MenuItem) (h : item.price.toList.head? ≠ some '-') :
    0 ≤ (dishFromMenuItem freshId item).price := by
  rw [dishFromMenuItem_price]
  split_ifs
  · exact le_refl 0
  · exact parse_float_nonneg item.price h

/-- Witness for C8 (amended) at a concrete scraped price string. -/
theorem C8_price_nonneg_unless_leading_minus_witness :
    (("25 kr" : String).toList.head? ≠ some '-')
    ∧ 0 ≤ (dishFromMenuItem 3 ⟨"soup", "", "", "25 kr", []⟩).price :=
  ⟨by decide,
   C8_price_nonneg_unless_leading_minus 3 ⟨"soup", "", "", "25 kr", []⟩
     (by decide)⟩

theorem assocInsert_of_fresh {κ α : Type} [BEq κ] (l : List (κ × α))
    (k : κ) (v : α) (h : l.any (fun p => p.1 == k) = false) :
    assocInsert l k v = l ++ [(k, v)] := by
  rw [assocInsert, if_neg (by simp [h])]

theorem assocInsert_keys_of_present {κ α : Type} [BEq κ] [LawfulBEq κ]
    (l : List (κ × α)) (k : κ) (v : α)
    (h : l.any (fun p => p.1 == k) = true) :
    (assocInsert l k v).map Prod.fst = l.map Prod.fst := by
  rw [assocInsert, if_pos h, List.map_map]
  apply List.map_congr_left
  intro p _
  simp only [Function.comp_def]
  by_cases hp : (p.1 == k) = true
  · rw [if_pos hp]
    exact (eq_of_beq hp).symm
  · rw [if_neg hp]

theorem assocInsert_keysNodup {κ α : Type} [BEq κ] [LawfulBEq κ]
    (l : List (κ × α)) (k : κ) (v : α)
    (h : (l.map Prod.fst).Nodup) :
    ((assocInsert l k v).map Prod.fst).Nodup := by
  by_cases hp : l.any (fun p => p.1 == k) = true
  · rw [assocInsert_keys_of_present l k v hp]
    exact h
  · rw [assocInsert_of_fresh l k v ((Bool.not_eq_true _) ▸ hp), List.map_append]
    have hk : k ∉ l.map Prod.fst := by
      rw [Bool.not_eq_true, List.any_eq_false] at hp
      intro hmem
      rcases List.mem_map.mp hmem with ⟨p, hpl, hpk⟩
      exact hp p hpl (by simp [hpk])
    simp [List.nodup_append, h, hk]

theorem foldl_assocInsert_keysNodup {κ α β : Type} [BEq κ] [LawfulBEq κ]
    (key : β → κ) (val : β → α) (l : List β) (acc : List (κ × α))
    (h : (acc.map Prod.fst).Nodup) :
    ((l.foldl (fun a b => assocInsert a (key b) (val b)) acc).map
      Prod.fst).Nodup := by
  induction l generalizing acc with
  | nil => exact h
  | cons b l ih => exact ih _ (assocInsert_keysNodup _ _ _ h)

theorem assocInsert_forall {κ α : Type} [BEq κ] (P : κ × α → Prop)
    (l : List (κ × α)) (k : κ) (v : α)
    (hl : ∀ p ∈ l, P p) (hkv : P (k, v)) :
    ∀ p ∈ assocInsert l k v, P p := by
  intro p hp
  unfold assocInsert at hp
  split at hp
  · rcases List.mem_map.mp hp with ⟨q, hq, hq'⟩
    by_cases hqk : (q.1 == k) = true
    · rw [if_pos hqk] at hq'
      rw [← hq']
      exact hkv
    · rw [if_neg hqk] at hq'
      rw [← hq']
      exact hl q hq
  · rcases List.mem_append.mp hp with hp | hp
    · exact hl p hp
    · rcases List.mem_singleton.mp hp with rfl
      exact hkv

theorem foldl_assocInsert_forall {κ α β : Type} [BEq κ] (P : κ × α → Prop)
    (key : β → κ) (val : β → α) (l : List β) (acc : List (κ × α))
    (hacc : ∀ p ∈ acc, P p) (hins : ∀ b ∈ l, P (key b, val b)) :
    ∀ p ∈ l.foldl (fun a b => assocInsert a (key b) (val b)) acc, P p := by
  induction l generalizing acc with
  | nil => exact hacc
  | cons b l ih =>
    exact ih _
      (assocInsert_forall P acc (key b) (val b) hacc
        (hins b (List.mem_cons_self _ _)))
      (fun b' hb' => hins b' (List.mem_cons_of_mem _ hb'))

theorem foldl_assocInsert_fresh {κ α β : Type} [BEq κ] [LawfulBEq κ]
    (key : β → κ) (val : β → α) (l : List β) (acc : List (κ × α))
    (hnodup : (l.map key).Nodup)
    (hdisj : ∀ b ∈ l, ∀ q ∈ acc, q.1 ≠ key b) :
    l.foldl (fun a b => assocInsert a (key b) (val b)) acc
      = acc ++ l.map (fun b => (key b, val b)) := by
  induction l generalizing acc with
  | nil => simp
  | cons b l ih =>
    rw [List.map_cons, List.nodup_cons] at hnodup
    obtain ⟨hb, hnodup⟩ := hnodup
    have hfresh : acc.any (fun p => p.1 == key b) = false := by
      rw [List.any_eq_false]
      intro q hq
      simpa using hdisj b (List.mem_cons_self _ _) q hq
    have hdisj' : ∀ b' ∈ l, ∀ q ∈ acc ++ [(key b, val b)], q.1 ≠ key b' := by
      intro b' hb' q hq
      rcases List.mem_append.mp hq with hq | hq
      · exact hdisj b' (List.mem_cons_of_mem _ hb') q hq
      · rcases List.mem_singleton.mp hq with rfl
        intro hkeq
        have hkeq' : key b = key b' := hkeq
        apply hb
        rw [hkeq']
        exact List.mem_map_of_mem key hb'
    rw [List.foldl_cons, assocInsert_of_fresh acc (key b) (val b) hfresh,
      ih _ hnodup hdisj']
    simp

theorem assocInsert_length_le {κ α : Type} [BEq κ] (l : List (κ × α))
    (k : κ) (v : α) :
    (assocInsert l k v).length ≤ l.length + 1 := by
  unfold assocInsert
  split
  · simp
  · simp

theorem assocInsert_length_of_present {κ α : Type} [BEq κ]
    (l : List (κ × α)) (k : κ) (v : α)
    (h : l.any (fun p => p.1 == k) = true) :
    (assocInsert l k v).length = l.length := by
  rw [assocInsert, if_pos h, List.length_map]

theorem foldl_assocInsert_length_le {κ α β : Type} [BEq κ]
    (key : β → κ) (val : β → α) (l : List β) (acc : List (κ × α)) :
    (l.foldl (fun a b => assocInsert a (key b) (val b)) acc).length
      ≤ acc.length + l.length := by
  induction l generalizing acc with
  | nil => simp
  | cons b l ih =>
    have h1 := ih (assocInsert acc (key b) (val b))
    have h2 := assocInsert_length_le acc (key b) (val b)
    simp only [List.foldl_cons, List.length_cons]
    omega

theorem mem_keys_assocInsert {κ α : Type} [BEq κ] [LawfulBEq κ]
    (l : List (κ × α)) (k k' : κ) (v : α)
    (h : k' ∈ l.map Prod.fst) :
    k' ∈ (assocInsert l k v).map Prod.fst := by
  by_cases hp : l.any (fun p => p.1 == k) = true
  · rw [assocInsert_keys_of_present l k v hp]
    exact h
  · rw [assocInsert_of_fresh l k v ((Bool.not_eq_true _) ▸ hp), List.map_append]
    exact List.mem_append_left _ h

theorem mem_keys_assocInsert_self {κ α : Type} [BEq κ] [LawfulBEq κ]
    (l : List (κ × α)) (k : κ) (v : α) :
    k ∈ (assocInsert l k v).map Prod.fst := by
  by_cases hp : l.any (fun p => p.1 == k) = true
  · rw [assocInsert_keys_of_present l k v hp]
    rw [List.any_eq_true] at hp
    rcases hp with ⟨p, hpl, hpk⟩
    have hpk' : p.1 = k := by simpa using hpk
    rw [← hpk']
    exact List.mem_map_of_mem Prod.fst hpl
  · rw [assocInsert_of_fresh l k v ((Bool.not_eq_true _) ▸ hp), List.map_append]
    exact List.mem_append_right _ (by simp)

theorem foldl_assocInsert_length_lt_of_mem {κ α β : Type} [BEq κ]
    [LawfulBEq κ] (key : β → κ) (val : β → α) (l : List β)
    (acc : List (κ × α)) (h : ∃ b ∈ l, key b ∈ acc.map Prod.fst) :
    (l.foldl (fun a b => assocInsert a (key b) (val b)) acc).length
      < acc.length + l.length := by
  induction l generalizing acc with
  | nil =>
    rcases h with ⟨b, hb, _⟩
    cases hb
  | cons b l ih =>
    simp only [List.foldl_cons, List.length_cons]
    by_cases hb : acc.any (fun p => p.1 == key b) = true
    · have hlen := assocInsert_length_of_present acc (key b) (val b) hb
      have hle := foldl_assocInsert_length_le key val l
        (assocInsert acc (key b) (val b))
      omega
    · rcases h with ⟨b', hb', hkb'⟩
      rcases List.mem_cons.mp hb' with rfl | hb'l
      · exfalso
        apply hb
        rw [List.any_eq_true]
        rcases List.mem_map.mp hkb' with ⟨q, hq, hq'⟩
        exact ⟨q, hq, by simp [hq']⟩
      · have hmono : key b' ∈ (assocInsert acc (key b) (val b)).map Prod.fst :=
          mem_keys_assocInsert _ _ _ _ hkb'
        have hlt := ih (assocInsert acc (key b) (val b)) ⟨b', hb'l, hmono⟩
        have hle := assocInsert_length_le acc (key b) (val b)
        omega

theorem foldl_assocInsert_length_lt_of_dup {κ α β : Type} [BEq κ]
    [LawfulBEq κ] (key : β → κ) (val : β → α) (l : List β)
    (acc : List (κ × α)) (h : ¬ (l.map key).Nodup) :
    (l.foldl (fun a b => assocInsert a (key b) (val b)) acc).length
      < acc.length + l.length := by
  induction l generalizing acc with
  | nil => exact absurd List.nodup_nil h
  | cons b l ih =>
    rw [List.map_cons, List.nodup_cons] at h
    simp only [List.foldl_cons, List.length_cons]
    by_cases hmem : key b ∈ l.map key
    · rcases List.mem_map.mp hmem with ⟨b', hb', hkb'⟩
      have hself : key b ∈ (assocInsert acc (key b) (val b)).map Prod.fst :=
        mem_keys_assocInsert_self acc (key b) (val b)
      have hlt := foldl_assocInsert_length_lt_of_mem key val l
        (assocInsert acc (key b) (val b))
        ⟨b', hb', by rw [hkb']; exact hself⟩
      have hle := assocInsert_length_le acc (key b) (val b)
      omega
    · have hdup : ¬ (l.map key).Nodup := fun hnd => h ⟨hmem, hnd⟩
      have hlt := ih (assocInsert acc (key b) (val b)) hdup
      have hle := assocInsert_length_le acc (key b) (val b)
      omega

/-- C10, claim as stated, is false in its round-trip part: two restaurants
with distinct names but an equal (aliased) id survive the name-keyed map,
yet the conversion back to the UUID-keyed map keys by `v.id()` and
collapses them, losing a restaurant even though all names were distinct. -/
theorem C10_counterexample :
    (([(1, ⟨7, 0, "A", none, none, none, none, 0, []⟩),
       (2, ⟨7, 0, "B", none, none, none, none, 0, []⟩)] :
        List (Nat × Restaurant)).map (fun p => p.2.name)).Nodup
    ∧ (⟨7, 0, "A", none, none, none, none, 0, []⟩ : Restaurant)
        ∈ ([(1, ⟨7, 0, "A", none, none, none, none, 0, []⟩),
            (2, ⟨7, 0, "B", none, none, none, none, 0, []⟩)] :
            List (Nat × Restaurant)).map (fun p => p.2)
    ∧ (⟨7, 0, "A", none, none, none, none, 0, []⟩ : Restaurant)
        ∉ (toUuidMap (toNameMap
            [(1, ⟨7, 0, "A", none, none, none, none, 0, []⟩),
             (2, ⟨7, 0, "B", none, none, none, none, 0, []⟩)])).map
            (fun p => p.2) := by
  decide

/-- C10 (amended): re-keying restaurants by name keeps at most one
restaurant per name — the resulting names are pairwise distinct, and a
name collision strictly shrinks the map, silently dropping all but one
holder of the name; and the round trip UuidMap → HashMap(String) → UuidMap
preserves the restaurant set provided the names **and** the restaurant ids
are pairwise distinct (ids are freshly generated per scrape, but distinct
names alone do not suffice, per the counterexample). -/
theorem C10_name_rekeying (m : List (Nat × Restaurant)) :
    ((toNameMap m).map (fun p => p.2.name)).Nodup
    ∧ (¬ (m.map (fun p => p.2.name)).Nodup →
        (toNameMap m).length < m.length)
    ∧ ((m.map (fun p => p.2.name)).Nodup →
        (m.map (fun p => p.2.restaurant_id)).Nodup →
        (toUuidMap (toNameMap m)).map (fun p => p.2)
          = m.map (fun p => p.2)) := by
  refine ⟨?_, ?_, ?_⟩
  · have hinv : ∀ p ∈ toNameMap m, p.1 = p.2.name :=
      foldl_assocInsert_forall (fun (p : String × Restaurant) => p.1 = p.2.name)
        (fun (p : Nat × Restaurant) => p.2.name) (fun p => p.2) m []
        (by simp) (fun b _ => rfl)
    have hkeys : ((toNameMap m).map Prod.fst).Nodup :=
      foldl_assocInsert_keysNodup
        (fun (p : Nat × Restaurant) => p.2.name) (fun p => p.2) m []
        (by simp)
    have hmapeq : (toNameMap m).map (fun p => p.2.name)
        = (toNameMap m).map Prod.fst :=
      List.map_congr_left (fun p hp => (hinv p hp).symm)
    rw [hmapeq]
    exact hkeys
  · intro hdup
    have hlt := foldl_assocInsert_length_lt_of_dup
      (fun (p : Nat × Restaurant) => p.2.name) (fun p => p.2) m [] hdup
    simpa [toNameMap] using hlt
  · intro hnames hids
    have h1 : toNameMap m = m.map (fun p => (p.2.name, p.2)) := by
      have := foldl_assocInsert_fresh
        (fun (p : Nat × Restaurant) => p.2.name) (fun p => p.2) m []
        hnames (by simp)
      simpa [toNameMap] using this
    have hids' : ((m.map (fun p => (p.2.name, p.2))).map
        (fun q => q.2.restaurant_id)).Nodup := by
      rw [List.map_map]
      exact hids
    have h2 : toUuidMap (m.map (fun p => (p.2.name, p.2)))
        = (m.map (fun p => (p.2.name, p.2))).map
            (fun q => (q.2.restaurant_id, q.2)) := by
      have := foldl_assocInsert_fresh
        (fun (q : String × Restaurant) => q.2.restaurant_id)
        (fun q => q.2) (m.map (fun p => (p.2.name, p.2))) []
        hids' (by simp)
      simpa [toUuidMap] using this
    rw [h1, h2]
    simp [List.map_map, Function.comp_def]

/-- Witness for C10 (amended): a name collision shrinks the map; with
distinct names and distinct ids the round trip preserves the set. -/
theorem C10_name_rekeying_witness :
    (¬ (([(1, ⟨7, 0, "A", none, none, none, none, 0, []⟩),
         (2, ⟨8, 0, "A", none, none, none, none, 0, []⟩)] :
          List (Nat × Restaurant)).map (fun p => p.2.name)).Nodup)
    ∧ (toNameMap
        [(1, ⟨7, 0, "A", none, none, none, none, 0, []⟩),
         (2, ⟨8, 0, "A", none, none, none, none, 0, []⟩)]).length
        < ([(1, ⟨7, 0, "A", none, none, none, none, 0, []⟩),
            (2, ⟨8, 0, "A", none, none, none, none, 0, []⟩)] :
            List (Nat × Restaurant)).length
    ∧ (([(1, ⟨7, 0, "A", none, none, none, none, 0, []⟩),
         (2, ⟨8, 0, "B", none, none, none, none, 0, []⟩)] :
          List (Nat × Restaurant)).map (fun p => p.2.name)).Nodup
    ∧ (([(1, ⟨7, 0, "A", none, none, none, none, 0, []⟩),
         (2, ⟨8, 0, "B", none, none, none, none, 0, []⟩)] :
          List (Nat × Restaurant)).map (fun p => p.2.restaurant_id)).Nodup
    ∧ (toUuidMap (toNameMap
        [(1, ⟨7, 0, "A", none, none, none, none, 0, []⟩),
         (2, ⟨8, 0, "B", none, none, none, none, 0, []⟩)])).map (fun p => p.2)
        = ([(1, ⟨7, 0, "A", none, none, none, none, 0, []⟩),
            (2, ⟨8, 0, "B", none, none, none, none, 0, []⟩)] :
            List (Nat × Restaurant)).map (fun p => p.2) :=
  ⟨by decide,
   (C10_name_rekeying
     [(1, ⟨7, 0, "A", none, none, none, none, 0, []⟩),
      (2, ⟨8, 0, "A", none, none, none, none, 0, []⟩)]).2.1 (by decide),
   by decide, by decide,
   (C10_name_rekeying
     [(1, ⟨7, 0, "A", none, none, none, none, 0, []⟩),
      (2, ⟨8, 0, "B", none, none, none, none, 0, []⟩)]).2.2
     (by decide) (by decide)⟩

theorem step_restaurants (st : DbState) (r : Restaurant) :
    (update_restaurants_step st r).restaurants
      = st.restaurants.filter (fun row => !(hitBy r row)) ++ [r.toRow] := rfl

theorem step_dishes (st : DbState) (r : Restaurant) :
    (update_restaurants_step st r).dishes
      = st.dishes.filter (fun d =>
          !(((st.restaurants.filter (hitBy r)).map
              (fun row => row.restaurant_id)).contains d.restaurant_id))
        ++ r.dishes.map Dish.toRow := rfl

theorem hitByAny_cons (r : Restaurant) (rs : List Restaurant)
    (row : RestaurantRow) :
    hitByAny (r :: rs) row = (hitBy r row || hitByAny rs row) := by
  simp [hitByAny, List.any_cons]

theorem hitBy_toRow_self (r : Restaurant) : hitBy r r.toRow = true := by
  simp [hitBy, Restaurant.toRow]

theorem hitByAny_toRow_of_mem {r : Restaurant} {rs : List Restaurant}
    (h : r ∈ rs) : hitByAny rs r.toRow = true := by
  rw [hitByAny, List.any_eq_true]
  exact ⟨r, h, hitBy_toRow_self r⟩

theorem mem_residR {ρ : Restaurant} {rs : List Restaurant}
    (h : ρ ∈ residR rs) : ρ ∈ rs := by
  induction rs with
  | nil => cases h
  | cons r rs ih =>
    simp only [residR] at h
    rcases List.mem_append.mp h with h | h
    · by_cases hk : keyMem r rs = true
      · rw [if_pos hk] at h
        cases h
      · rw [if_neg hk] at h
        rcases List.mem_singleton.mp h with rfl
        exact List.mem_cons_self _ _
    · exact List.mem_cons_of_mem _ (ih h)

theorem residDishes_cons (r : Restaurant) (rs : List Restaurant) :
    residDishes (r :: rs)
      = (if keyMem r rs then [] else r.dishes.map Dish.toRow)
        ++ residDishes rs := by
  by_cases hk : keyMem r rs = true
  · simp [residDishes, residR, hk]
  · simp [residDishes, residR, hk]

theorem mem_residDishes {d : DishRow} {rs : List Restaurant}
    (h : d ∈ residDishes rs) :
    ∃ ρ ∈ residR rs, d ∈ ρ.dishes.map Dish.toRow := by
  rw [residDishes, List.mem_flatten] at h
  rcases h with ⟨l, hl, hd⟩
  rcases List.mem_map.mp hl with ⟨ρ, hρ, rfl⟩
  exact ⟨ρ, hρ, hd⟩

theorem stDishRemoved_eq_true_iff (rows : List RestaurantRow)
    (rs : List Restaurant) (d : DishRow) :
    stDishRemoved rows rs d = true
      ↔ ∃ row, row ∈ rows ∧ row.restaurant_id = d.restaurant_id
          ∧ hitByAny rs row = true := by
  simp [stDishRemoved, List.any_eq_true, Bool.and_eq_true, beq_iff_eq]

theorem update_restaurants_ops_foldl (rs : List Restaurant) (st : DbState) :
    ((rs.map (fun r =>
      [DbOp.deleteByName r.site_id r.name,
       DbOp.insertRestaurant r.toRow,
       DbOp.insertDishes (r.dishes.map Dish.toRow)])).flatten).foldl execOp st
      = rs.foldl update_restaurants_step st := by
  induction rs generalizing st with
  | nil => rfl
  | cons r rs ih =>
    rw [List.map_cons, List.flatten_cons, List.foldl_append, List.foldl_cons]
    exact ih _

/-- Characterization of the delete/insert loop of `db::update_restaurants`
run from an arbitrary state: the stored rows not hit by any of the result's
deletes survive, each `(site_id, name)` key keeps exactly the last scraped
restaurant carrying it, and the cascade removes exactly the dishes of the
deleted restaurant rows.  The hypotheses reflect the database constraints:
fresh scraped ids are pairwise distinct, dishes are keyed to their parent
restaurant, and any stored row or dish aliasing a scraped id belongs to a
row that the result's deletes hit anyway. -/
theorem update_restaurants_char (rs : List Restaurant) (st : DbState)
    (hnodup : (rs.map (fun r => r.restaurant_id)).Nodup)
    (hpar : ∀ r ∈ rs, ∀ d ∈ r.dishes, d.restaurant_id = r.restaurant_id)
    (hrow : ∀ row ∈ st.restaurants, ∀ r ∈ rs,
      row.restaurant_id = r.restaurant_id → hitBy r row = true)
    (hdish : ∀ d ∈ st.dishes, ∀ r ∈ rs,
      d.restaurant_id = r.restaurant_id →
      ∃ row ∈ st.restaurants, row.restaurant_id = d.restaurant_id
        ∧ hitBy r row = true) :
    rs.foldl update_restaurants_step st
      = { restaurants :=
            st.restaurants.filter (fun row => !(hitByAny rs row))
              ++ (residR rs).map Restaurant.toRow
          dishes :=
            st.dishes.filter (fun d => !(stDishRemoved st.restaurants rs d))
              ++ residDishes rs } := by
  induction rs generalizing st with
  | nil =>
    have hany : (st.restaurants.any fun _ => false) = false := by
      rw [List.any_eq_false]
      intro row _
      simp
    simp [residR, residDishes, hitByAny, stDishRemoved, hany]
  | cons r rs ih =>
    rw [List.map_cons, List.nodup_cons] at hnodup
    obtain ⟨hid_not, hnodup⟩ := hnodup
    have hpar' : ∀ r' ∈ rs, ∀ d ∈ r'.dishes,
        d.restaurant_id = r'.restaurant_id :=
      fun r' hr' => hpar r' (List.mem_cons_of_mem _ hr')
    -- the state after the head restaurant's delete/insert
    have hrow1 : ∀ row ∈ (update_restaurants_step st r).restaurants,
        ∀ r' ∈ rs, row.restaurant_id = r'.restaurant_id →
        hitBy r' row = true := by
      intro row hrowmem r' hr' heq
      rw [step_restaurants] at hrowmem
      rcases List.mem_append.mp hrowmem with hm | hm
      · exact hrow row (List.mem_filter.mp hm).1 r'
          (List.mem_cons_of_mem _ hr') heq
      · rcases List.mem_singleton.mp hm with rfl
        exfalso
        apply hid_not
        have heq' : r.restaurant_id = r'.restaurant_id := heq
        rw [heq']
        exact List.mem_map_of_mem _ hr'
    have hdish1 : ∀ d ∈ (update_restaurants_step st r).dishes,
        ∀ r' ∈ rs, d.restaurant_id = r'.restaurant_id →
        ∃ row ∈ (update_restaurants_step st r).restaurants,
          row.restaurant_id = d.restaurant_id ∧ hitBy r' row = true := by
      intro d hd r' hr' heq
      rw [step_dishes] at hd
      rcases List.mem_append.mp hd with hm | hm
      · obtain ⟨hdst, hkeep⟩ := List.mem_filter.mp hm
        obtain ⟨row, hrowst, hrid, hhit⟩ :=
          hdish d hdst r' (List.mem_cons_of_mem _ hr') heq
        by_cases hbr : hitBy r row = true
        · exfalso
          have hcont : ((st.restaurants.filter (hitBy r)).map
              (fun row => row.restaurant_id)).contains d.restaurant_id
              = true := by
            apply List.contains_iff_exists_mem_beq.mpr
            refine ⟨row.restaurant_id, ?_, by simp [hrid]⟩
            exact List.mem_map_of_mem _ (List.mem_filter.mpr ⟨hrowst, hbr⟩)
          rw [hcont] at hkeep
          cases hkeep
        · have hbrf : hitBy r row = false := (Bool.not_eq_true _) ▸ hbr
          refine ⟨row, ?_, hrid, hhit⟩
          rw [step_restaurants]
          exact List.mem_append_left _
            (List.mem_filter.mpr ⟨hrowst, by rw [hbrf]; rfl⟩)
      · rcases List.mem_map.mp hm with ⟨dd, hdd, rfl⟩
        exfalso
        apply hid_not
        have heq' : dd.restaurant_id = r'.restaurant_id := heq
        have heq'' : dd.restaurant_id = r.restaurant_id :=
          hpar r (List.mem_cons_self _ _) dd hdd
        rw [← heq'', heq']
        exact List.mem_map_of_mem _ hr'
    rw [List.foldl_cons, ih (update_restaurants_step st r) hnodup hpar'
      hrow1 hdish1]
    -- componentwise equalities
    have hpt : ∀ a ∈ st.restaurants,
        (!(hitByAny rs a) && !(hitBy r a)) = !(hitByAny (r :: rs) a) := by
      intro a _
      rw [hitByAny_cons, Bool.not_or, Bool.and_comm]
    have hsing : [r.toRow].filter (fun row => !(hitByAny rs row))
        = (if keyMem r rs then ([] : List RestaurantRow) else [r.toRow]) := by
      simp only [List.filter_cons, List.filter_nil]
      rw [show hitByAny rs r.toRow = keyMem r rs from rfl]
      by_cases hk : keyMem r rs = true
      · simp [hk]
      · simp [hk]
    have hmapif : ((if keyMem r rs then [] else [r]).map Restaurant.toRow)
        = (if keyMem r rs then [] else [r.toRow]) := by
      by_cases hk : keyMem r rs = true <;> simp [hk]
    have hR : (update_restaurants_step st r).restaurants.filter
          (fun row => !(hitByAny rs row)) ++ (residR rs).map Restaurant.toRow
        = st.restaurants.filter (fun row => !(hitByAny (r :: rs) row))
          ++ (residR (r :: rs)).map Restaurant.toRow := by
      rw [step_restaurants, List.filter_append, List.filter_filter,
        List.filter_congr hpt, hsing]
      simp only [residR, List.map_append, hmapif, List.append_assoc]
    have hD : (update_restaurants_step st r).dishes.filter
          (fun d => !(stDishRemoved
            (update_restaurants_step st r).restaurants rs d))
          ++ residDishes rs
        = st.dishes.filter
            (fun d => !(stDishRemoved st.restaurants (r :: rs) d))
          ++ residDishes (r :: rs) := by
      have h2a : ∀ d : DishRow,
          stDishRemoved (update_restaurants_step st r).restaurants rs d = true
          → d ∈ st.dishes
          → stDishRemoved st.restaurants (r :: rs) d = true := by
        intro d hA hd
        obtain ⟨row, hrowmem, hrid, hany⟩ :=
          (stDishRemoved_eq_true_iff _ _ _).mp hA
        rw [step_restaurants] at hrowmem
        rcases List.mem_append.mp hrowmem with hm | hm
        · obtain ⟨hrowst, -⟩ := List.mem_filter.mp hm
          apply (stDishRemoved_eq_true_iff _ _ _).mpr
          exact ⟨row, hrowst, hrid, by rw [hitByAny_cons, hany, Bool.or_true]⟩
        · rcases List.mem_singleton.mp hm with rfl
          have hdr : d.restaurant_id = r.restaurant_id := hrid.symm
          obtain ⟨row', hrow'st, hrid', hhit'⟩ :=
            hdish d hd r (List.mem_cons_self _ _) hdr
          apply (stDishRemoved_eq_true_iff _ _ _).mpr
          exact ⟨row', hrow'st, hrid',
            by rw [hitByAny_cons, hhit', Bool.true_or]⟩
      have h2b : ∀ d : DishRow,
          ((st.restaurants.filter (hitBy r)).map
            (fun row => row.restaurant_id)).contains d.restaurant_id = true
          → stDishRemoved st.restaurants (r :: rs) d = true := by
        intro d hB
        obtain ⟨x, hx, hbeq⟩ := List.contains_iff_exists_mem_beq.mp hB
        rcases List.mem_map.mp hx with ⟨row, hrowf, rfl⟩
        obtain ⟨hrowst, hhit⟩ := List.mem_filter.mp hrowf
        apply (stDishRemoved_eq_true_iff _ _ _).mpr
        refine ⟨row, hrowst, (eq_of_beq hbeq).symm,
          by rw [hitByAny_cons, hhit, Bool.true_or]⟩
      have h1 : ∀ d : DishRow, d ∈ st.dishes
          → stDishRemoved st.restaurants (r :: rs) d = true
          → (stDishRemoved (update_restaurants_step st r).restaurants rs d
              = true
            ∨ ((st.restaurants.filter (hitBy r)).map
                (fun row => row.restaurant_id)).contains d.restaurant_id
              = true) := by
        intro d _ hC
        obtain ⟨row, hrowst, hrid, hany⟩ :=
          (stDishRemoved_eq_true_iff _ _ _).mp hC
        rw [hitByAny_cons, Bool.or_eq_true] at hany
        by_cases hbr : hitBy r row = true
        · right
          apply List.contains_iff_exists_mem_beq.mpr
          refine ⟨row.restaurant_id, ?_, by simp [hrid.symm]⟩
          exact List.mem_map_of_mem _ (List.mem_filter.mpr ⟨hrowst, hbr⟩)
        · have hanyrs : hitByAny rs row = true := by
            rcases hany with hany | hany
            · exact absurd hany hbr
            · exact hany
          left
          apply (stDishRemoved_eq_true_iff _ _ _).mpr
          refine ⟨row, ?_, hrid, hanyrs⟩
          rw [step_restaurants]
          have hbrf : hitBy r row = false := (Bool.not_eq_true _) ▸ hbr
          exact List.mem_append_left _
            (List.mem_filter.mpr ⟨hrowst, by rw [hbrf]; rfl⟩)
      have hptD : ∀ d ∈ st.dishes,
          (!(stDishRemoved (update_restaurants_step st r).restaurants rs d)
            && !(((st.restaurants.filter (hitBy r)).map
                (fun row => row.restaurant_id)).contains d.restaurant_id))
          = !(stDishRemoved st.restaurants (r :: rs) d) := by
        intro d hd
        by_cases hC : stDishRemoved st.restaurants (r :: rs) d = true
        · rw [hC]
          rcases h1 d hd hC with hA | hB
          · rw [hA]
            rfl
          · rw [hB]
            simp
        · have hCf : stDishRemoved st.restaurants (r :: rs) d = false :=
            (Bool.not_eq_true _) ▸ hC
          have hAf : stDishRemoved
              (update_restaurants_step st r).restaurants rs d = false := by
            cases hAv : stDishRemoved
                (update_restaurants_step st r).restaurants rs d
            · rfl
            · exact absurd (h2a d hAv hd) hC
          have hBf : ((st.restaurants.filter (hitBy r)).map
              (fun row => row.restaurant_id)).contains d.restaurant_id
              = false := by
            cases hBv : ((st.restaurants.filter (hitBy r)).map
                (fun row => row.restaurant_id)).contains d.restaurant_id
            · rfl
            · exact absurd (h2b d hBv) hC
          rw [hCf, hAf, hBf]
          rfl
      have hqd : ∀ d' ∈ r.dishes.map Dish.toRow,
          (!(stDishRemoved (update_restaurants_step st r).restaurants rs d'))
            = !(keyMem r rs) := by
        intro d' hd'
        rcases List.mem_map.mp hd' with ⟨dd, hdd, rfl⟩
        have hdr : (Dish.toRow dd).restaurant_id = r.restaurant_id :=
          hpar r (List.mem_cons_self _ _) dd hdd
        have hiff : stDishRemoved
            (update_restaurants_step st r).restaurants rs (Dish.toRow dd)
            = keyMem r rs := by
          by_cases hk : keyMem r rs = true
          · rw [hk]
            apply (stDishRemoved_eq_true_iff _ _ _).mpr
            refine ⟨r.toRow, ?_, hdr.symm, hk⟩
            rw [step_restaurants]
            exact List.mem_append_right _ (List.mem_singleton.mpr rfl)
          · have hkf : keyMem r rs = false := (Bool.not_eq_true _) ▸ hk
            rw [hkf]
            cases hAv : stDishRemoved
                (update_restaurants_step st r).restaurants rs
                (Dish.toRow dd)
            · rfl
            · exfalso
              obtain ⟨row, hrowmem, hrid, hany⟩ :=
                (stDishRemoved_eq_true_iff _ _ _).mp hAv
              rw [step_restaurants] at hrowmem
              rcases List.mem_append.mp hrowmem with hm | hm
              · obtain ⟨hrowst, hnot⟩ := List.mem_filter.mp hm
                have : hitBy r row = true :=
                  hrow row hrowst r (List.mem_cons_self _ _) (hrid.trans hdr)
                rw [this] at hnot
                cases hnot
              · rcases List.mem_singleton.mp hm with rfl
                rw [show hitByAny rs r.toRow = keyMem r rs from rfl, hkf]
                  at hany
                cases hany
        rw [hiff]
      rw [step_dishes, List.filter_append, List.filter_filter,
        List.filter_congr hptD, List.filter_congr hqd, residDishes_cons]
      by_cases hk : keyMem r rs = true
      · rw [hk]
        simp
      · have hkf : keyMem r rs = false := (Bool.not_eq_true _) ▸ hk
        rw [hkf]
        simp
    rw [hR, hD]

theorem update_restaurants_idem (u : SiteScrapeResult) (st : DbState)
    (hnodup : (u.restaurants.map (fun r => r.restaurant_id)).Nodup)
    (hpar : ∀ r ∈ u.restaurants, ∀ d ∈ r.dishes,
      d.restaurant_id = r.restaurant_id)
    (hfrow : ∀ row ∈ st.restaurants, ∀ r ∈ u.restaurants,
      row.restaurant_id ≠ r.restaurant_id)
    (hfdish : ∀ d ∈ st.dishes, ∀ r ∈ u.restaurants,
      d.restaurant_id ≠ r.restaurant_id) :
    update_restaurants (update_restaurants st u) u
      = update_restaurants st u := by
  have inj := List.inj_on_of_nodup_map hnodup
  have h1 : update_restaurants st u
      = { restaurants :=
            st.restaurants.filter (fun row => !(hitByAny u.restaurants row))
              ++ (residR u.restaurants).map Restaurant.toRow
          dishes :=
            st.dishes.filter (fun d =>
              !(stDishRemoved st.restaurants u.restaurants d))
              ++ residDishes u.restaurants } :=
    update_restaurants_char u.restaurants st hnodup hpar
      (fun row hm r hr heq => absurd heq (hfrow row hm r hr))
      (fun d hm r hr heq => absurd heq (hfdish d hm r hr))
  have hrow2 : ∀ row ∈
      st.restaurants.filter (fun row => !(hitByAny u.restaurants row))
        ++ (residR u.restaurants).map Restaurant.toRow,
      ∀ r' ∈ u.restaurants, row.restaurant_id = r'.restaurant_id →
      hitBy r' row = true := by
    intro row hm r' hr' heq
    rcases List.mem_append.mp hm with hm | hm
    · exact absurd heq (hfrow row (List.mem_filter.mp hm).1 r' hr')
    · rcases List.mem_map.mp hm with ⟨ρ, hρ, rfl⟩
      have heq' : ρ.restaurant_id = r'.restaurant_id := heq
      have hρr' : ρ = r' := inj (mem_residR hρ) hr' heq'
      rw [← hρr']
      exact hitBy_toRow_self ρ
  have hdish2 : ∀ d ∈
      st.dishes.filter (fun d =>
        !(stDishRemoved st.restaurants u.restaurants d))
        ++ residDishes u.restaurants,
      ∀ r' ∈ u.restaurants, d.restaurant_id = r'.restaurant_id →
      ∃ row ∈
        st.restaurants.filter (fun row => !(hitByAny u.restaurants row))
          ++ (residR u.restaurants).map Restaurant.toRow,
        row.restaurant_id = d.restaurant_id ∧ hitBy r' row = true := by
    intro d hm r' hr' heq
    rcases List.mem_append.mp hm with hm | hm
    · exact absurd heq (hfdish d (List.mem_filter.mp hm).1 r' hr')
    · obtain ⟨ρ, hρ, hd⟩ := mem_residDishes hm
      rcases List.mem_map.mp hd with ⟨dd, hdd, rfl⟩
      have hρrs := mem_residR hρ
      have hddρ : (Dish.toRow dd).restaurant_id = ρ.restaurant_id :=
        hpar ρ hρrs dd hdd
      have hρr' : ρ = r' := inj hρrs hr' (hddρ.symm.trans heq)
      refine ⟨ρ.toRow,
        List.mem_append_right _ (List.mem_map_of_mem _ hρ), hddρ.symm, ?_⟩
      rw [← hρr']
      exact hitBy_toRow_self ρ
  have h2 := update_restaurants_char u.restaurants
    ⟨st.restaurants.filter (fun row => !(hitByAny u.restaurants row))
        ++ (residR u.restaurants).map Restaurant.toRow,
      st.dishes.filter (fun d =>
        !(stDishRemoved st.restaurants u.restaurants d))
        ++ residDishes u.restaurants⟩
    hnodup hpar hrow2 hdish2
  have hER : (st.restaurants.filter (fun row => !(hitByAny u.restaurants row))
        ++ (residR u.restaurants).map Restaurant.toRow).filter
          (fun row => !(hitByAny u.restaurants row))
      = st.restaurants.filter (fun row => !(hitByAny u.restaurants row)) := by
    rw [List.filter_append, List.filter_filter]
    have h1f : st.restaurants.filter (fun a =>
        !(hitByAny u.restaurants a) && !(hitByAny u.restaurants a))
        = st.restaurants.filter (fun row => !(hitByAny u.restaurants row)) :=
      List.filter_congr (fun a _ => Bool.and_self _)
    have h2f : ((residR u.restaurants).map Restaurant.toRow).filter
        (fun row => !(hitByAny u.restaurants row)) = [] := by
      rw [List.filter_eq_nil_iff]
      intro row hrow
      rcases List.mem_map.mp hrow with ⟨ρ, hρ, rfl⟩
      rw [hitByAny_toRow_of_mem (mem_residR hρ)]
      simp
    rw [h1f, h2f, List.append_nil]
  have hED : (st.dishes.filter (fun d =>
        !(stDishRemoved st.restaurants u.restaurants d))
        ++ residDishes u.restaurants).filter
          (fun d => !(stDishRemoved
            (st.restaurants.filter (fun row => !(hitByAny u.restaurants row))
              ++ (residR u.restaurants).map Restaurant.toRow)
            u.restaurants d))
      = st.dishes.filter (fun d =>
          !(stDishRemoved st.restaurants u.restaurants d)) := by
    rw [List.filter_append]
    have h1f : (st.dishes.filter (fun d =>
        !(stDishRemoved st.restaurants u.restaurants d))).filter
          (fun d => !(stDishRemoved
            (st.restaurants.filter (fun row => !(hitByAny u.restaurants row))
              ++ (residR u.restaurants).map Restaurant.toRow)
            u.restaurants d))
        = st.dishes.filter (fun d =>
            !(stDishRemoved st.restaurants u.restaurants d)) := by
      have hcongr : ∀ d ∈ st.dishes.filter (fun d =>
          !(stDishRemoved st.restaurants u.restaurants d)),
          (!(stDishRemoved
            (st.restaurants.filter (fun row => !(hitByAny u.restaurants row))
              ++ (residR u.restaurants).map Restaurant.toRow)
            u.restaurants d)) = (fun _ : DishRow => true) d := by
        intro d hd
        have hdst : d ∈ st.dishes := (List.mem_filter.mp hd).1
        have hfalse : stDishRemoved
            (st.restaurants.filter (fun row => !(hitByAny u.restaurants row))
              ++ (residR u.restaurants).map Restaurant.toRow)
            u.restaurants d = false := by
          cases hv : stDishRemoved
              (st.restaurants.filter (fun row =>
                !(hitByAny u.restaurants row))
                ++ (residR u.restaurants).map Restaurant.toRow)
              u.restaurants d
          · rfl
          · exfalso
            obtain ⟨row, hrm, hrid, hany⟩ :=
              (stDishRemoved_eq_true_iff _ _ _).mp hv
            rcases List.mem_append.mp hrm with hrm | hrm
            · obtain ⟨-, hnot⟩ := List.mem_filter.mp hrm
              rw [hany] at hnot
              cases hnot
            · rcases List.mem_map.mp hrm with ⟨ρ, hρ, rfl⟩
              have : d.restaurant_id = ρ.restaurant_id := hrid.symm
              exact hfdish d hdst ρ (mem_residR hρ) this
        rw [hfalse]
        rfl
      rw [List.filter_congr hcongr, List.filter_true]
    have h2f : (residDishes u.restaurants).filter
        (fun d => !(stDishRemoved
          (st.restaurants.filter (fun row => !(hitByAny u.restaurants row))
            ++ (residR u.restaurants).map Restaurant.toRow)
          u.restaurants d)) = [] := by
      rw [List.filter_eq_nil_iff]
      intro d hd
      obtain ⟨ρ, hρ, hdm⟩ := mem_residDishes hd
      rcases List.mem_map.mp hdm with ⟨dd, hdd, rfl⟩
      have hddρ : (Dish.toRow dd).restaurant_id = ρ.restaurant_id :=
        hpar ρ (mem_residR hρ) dd hdd
      have htrue : stDishRemoved
          (st.restaurants.filter (fun row => !(hitByAny u.restaurants row))
            ++ (residR u.restaurants).map Restaurant.toRow)
          u.restaurants (Dish.toRow dd) = true := by
        apply (stDishRemoved_eq_true_iff _ _ _).mpr
        refine ⟨ρ.toRow,
          List.mem_append_right _ (List.mem_map_of_mem _ hρ), hddρ.symm,
          hitByAny_toRow_of_mem (mem_residR hρ)⟩
      rw [htrue]
      simp
    rw [h1f, h2f, List.append_nil]
  rw [h1]
  show update_restaurants _ u = _
  rw [show update_restaurants
      ⟨st.restaurants.filter (fun row => !(hitByAny u.restaurants row))
          ++ (residR u.restaurants).map Restaurant.toRow,
        st.dishes.filter (fun d =>
          !(stDishRemoved st.restaurants u.restaurants d))
          ++ residDishes u.restaurants⟩ u
      = u.restaurants.foldl update_restaurants_step
        ⟨st.restaurants.filter (fun row => !(hitByAny u.restaurants row))
            ++ (residR u.restaurants).map Restaurant.toRow,
          st.dishes.filter (fun d =>
            !(stDishRemoved st.restaurants u.restaurants d))
            ++ residDishes u.restaurants⟩ from rfl, h2]
  rw [show (⟨st.restaurants.filter (fun row => !(hitByAny u.restaurants row))
          ++ (residR u.restaurants).map Restaurant.toRow,
        st.dishes.filter (fun d =>
          !(stDishRemoved st.restaurants u.restaurants d))
          ++ residDishes u.restaurants⟩ : DbState).restaurants
      = st.restaurants.filter (fun row => !(hitByAny u.restaurants row))
          ++ (residR u.restaurants).map Restaurant.toRow from rfl]
  rw [show (⟨st.restaurants.filter (fun row => !(hitByAny u.restaurants row))
          ++ (residR u.restaurants).map Restaurant.toRow,
        st.dishes.filter (fun d =>
          !(stDishRemoved st.restaurants u.restaurants d))
          ++ residDishes u.restaurants⟩ : DbState).dishes
      = st.dishes.filter (fun d =>
          !(stDishRemoved st.restaurants u.restaurants d))
          ++ residDishes u.restaurants from rfl]
  rw [hER, hED]

/-- C2: `db::update_restaurants` executes all of a result's deletes and
inserts inside its single transaction — an execution that fails after any
proper prefix of the statements commits nothing, and only the complete run
commits the fully updated state — and applying the same `SiteScrapeResult`
twice in a row leaves the stored restaurant/dish rows exactly as applying
it once, under the database's freshness constraints (the scraped ids are
pairwise distinct, dishes are keyed to their parent restaurant, and no
stored row or dish aliases a scraped id — ids are freshly generated
UUIDs). -/
theorem C2_update_restaurants_atomic_idempotent
    (u : SiteScrapeResult) (st : DbState) (k : Nat)
    (hnodup : (u.restaurants.map (fun r => r.restaurant_id)).Nodup)
    (hpar : ∀ r ∈ u.restaurants, ∀ d ∈ r.dishes,
      d.restaurant_id = r.restaurant_id)
    (hfrow : ∀ row ∈ st.restaurants, ∀ r ∈ u.restaurants,
      row.restaurant_id ≠ r.restaurant_id)
    (hfdish : ∀ d ∈ st.dishes, ∀ r ∈ u.restaurants,
      d.restaurant_id ≠ r.restaurant_id) :
    (runTx (update_restaurants_ops u) st k = st
      ∨ runTx (update_restaurants_ops u) st k = update_restaurants st u)
    ∧ runTx (update_restaurants_ops u) st (update_restaurants_ops u).length
        = update_restaurants st u
    ∧ update_restaurants (update_restaurants st u) u
        = update_restaurants st u := by
  have hfold : (update_restaurants_ops u).foldl execOp st
      = update_restaurants st u :=
    update_restaurants_ops_foldl u.restaurants st
  refine ⟨?_, ?_, update_restaurants_idem u st hnodup hpar hfrow hfdish⟩
  · unfold runTx
    split
    · right
      exact hfold
    · left
      rfl
  · unfold runTx
    rw [if_pos (le_refl _)]
    exact hfold

/-- Witness for C2: a two-restaurant, one-dish result applied to the empty
store, with a failure point after two of the six statements. -/
theorem C2_update_restaurants_atomic_idempotent_witness :
    ((⟨5, [⟨101, 5, "A", none, none, none, none, 0,
          [⟨201, 101, "soup", none, none, [], 0⟩]⟩,
        ⟨102, 5, "B", none, none, none, none, 0, []⟩]⟩ :
        SiteScrapeResult).restaurants.map
        (fun r => r.restaurant_id)).Nodup
    ∧ (∀ r ∈ (⟨5, [⟨101, 5, "A", none, none, none, none, 0,
          [⟨201, 101, "soup", none, none, [], 0⟩]⟩,
        ⟨102, 5, "B", none, none, none, none, 0, []⟩]⟩ :
        SiteScrapeResult).restaurants, ∀ d ∈ r.dishes,
        d.restaurant_id = r.restaurant_id)
    ∧ (∀ row ∈ (⟨[], []⟩ : DbState).restaurants,
        ∀ r ∈ (⟨5, [⟨101, 5, "A", none, none, none, none, 0,
            [⟨201, 101, "soup", none, none, [], 0⟩]⟩,
          ⟨102, 5, "B", none, none, none, none, 0, []⟩]⟩ :
          SiteScrapeResult).restaurants,
        row.restaurant_id ≠ r.restaurant_id)
    ∧ (∀ d ∈ (⟨[], []⟩ : DbState).dishes,
        ∀ r ∈ (⟨5, [⟨101, 5, "A", none, none, none, none, 0,
            [⟨201, 101, "soup", none, none, [], 0⟩]⟩,
          ⟨102, 5, "B", none, none, none, none, 0, []⟩]⟩ :
          SiteScrapeResult).restaurants,
        d.restaurant_id ≠ r.restaurant_id)
    ∧ ((runTx (update_restaurants_ops
          ⟨5, [⟨101, 5, "A", none, none, none, none, 0,
              [⟨201, 101, "soup", none, none, [], 0⟩]⟩,
            ⟨102, 5, "B", none, none, none, none, 0, []⟩]⟩) ⟨[], []⟩ 2
          = ⟨[], []⟩
        ∨ runTx (update_restaurants_ops
            ⟨5, [⟨101, 5, "A", none, none, none, none, 0,
                [⟨201, 101, "soup", none, none, [], 0⟩]⟩,
              ⟨102, 5, "B", none, none, none, none, 0, []⟩]⟩) ⟨[], []⟩ 2
          = update_restaurants ⟨[], []⟩
              ⟨5, [⟨101, 5, "A", none, none, none, none, 0,
                  [⟨201, 101, "soup", none, none, [], 0⟩]⟩,
                ⟨102, 5, "B", none, none, none, none, 0, []⟩]⟩)
      ∧ runTx (update_restaurants_ops
            ⟨5, [⟨101, 5, "A", none, none, none, none, 0,
                [⟨201, 101, "soup", none, none, [], 0⟩]⟩,
              ⟨102, 5, "B", none, none, none, none, 0, []⟩]⟩) ⟨[], []⟩
            (update_restaurants_ops
              ⟨5, [⟨101, 5, "A", none, none, none, none, 0,
                  [⟨201, 101, "soup", none, none, [], 0⟩]⟩,
                ⟨102, 5, "B", none, none, none, none, 0, []⟩]⟩).length
          = update_restaurants ⟨[], []⟩
              ⟨5, [⟨101, 5, "A", none, none, none, none, 0,
                  [⟨201, 101, "soup", none, none, [], 0⟩]⟩,
                ⟨102, 5, "B", none, none, none, none, 0, []⟩]⟩
      ∧ update_restaurants
            (update_restaurants ⟨[], []⟩
              ⟨5, [⟨101, 5, "A", none, none, none, none, 0,
                  [⟨201, 101, "soup", none, none, [], 0⟩]⟩,
                ⟨102, 5, "B", none, none, none, none, 0, []⟩]⟩)
            ⟨5, [⟨101, 5, "A", none, none, none, none, 0,
                [⟨201, 101, "soup", none, none, [], 0⟩]⟩,
              ⟨102, 5, "B", none, none, none, none, 0, []⟩]⟩
          = update_restaurants ⟨[], []⟩
              ⟨5, [⟨101, 5, "A", none, none, none, none, 0,
                  [⟨201, 101, "soup", none, none, [], 0⟩]⟩,
                ⟨102, 5, "B", none, none, none, none, 0, []⟩]⟩) :=
  ⟨by decide, by decide, by decide, by decide,
   C2_update_restaurants_atomic_idempotent
     ⟨5, [⟨101, 5, "A", none, none, none, none, 0,
         [⟨201, 101, "soup", none, none, [], 0⟩]⟩,
       ⟨102, 5, "B", none, none, none, none, 0, []⟩]⟩
     ⟨[], []⟩ 2 (by decide) (by decide) (by decide) (by decide)⟩

/-- Witness for C9: one well-formed record followed by a corrupt one
inserts nothing at all. -/
theorem C9_preload_all_or_nothing_witness :
    (RawRecord.corrupt ∈ [RawRecord.entry ⟨"k", [1]⟩, RawRecord.corrupt])
    ∧ CacheBuilder.populate_cache
        (.present [RawRecord.entry ⟨"k", [1]⟩, RawRecord.corrupt])
        ⟨30, []⟩ 5
        = ⟨30, []⟩ :=
  ⟨by decide,
   (C9_preload_all_or_nothing
     [RawRecord.entry ⟨"k", [1]⟩, RawRecord.corrupt] ⟨30, []⟩ 5).1
     (by decide)⟩

end RLunch
